import Mathlib

/-! # Struct-tag validation engine (`NGC_P2W1D1/main.go`)

A shallow embedding of the reflection-driven validator: `parseTags`,
`validateField`, `parseInt`, `isZero`, `isValidEmail` and `Validate`,
together with the standard-library routines they call (`strings.Split`,
`strings.SplitN`, `strconv.Atoi`, `regexp.MatchString`), and of
`createProfileHandler` of `restful_api/main.go`.

Conventions of the embedding.

* Go text is a Lean `String` (a valid UTF-8 text); `len(s)` is the number
  of bytes of its UTF-8 encoding, `String.utf8ByteSize`.
* Go `int` / `int64` values are `Int`; the only place where the machine
  width is visible is `strconv.Atoi`, which is modelled with its 64-bit
  range checks.
* A `map[string]string` is a finite partial function, `String → Option String`.
* An `error` result is `Except.error msg`, `msg` being its message; `nil` is
  `Except.ok ()`.
-/

namespace Validator

/-! ## Values seen through reflection -/

/-- The kinds of `reflect.Kind` that `validateField` tells apart. -/
inductive Kind where
  | Int
  | String
  | Other
  deriving DecidableEq, Repr

/-- A field value as `reflect.Value` presents it.  Of a value whose kind is
neither `int` nor `string` the code observes only whether it is the zero
value. -/
inductive Value where
  | int (n : Int)
  | str (s : String)
  | other (zero : Bool)
  deriving DecidableEq, Repr

/-- The kind of a value, `value.Kind()`. -/
def Value.Kind : Value → Kind
  | .int _ => .Int
  | .str _ => .String
  | .other _ => .Other

/-- The integer held by a value of kind `int`, `value.Int()`. -/
def Value.Int : Value → Int
  | .int n => n
  | _ => 0

/-- The text held by a value of kind `string`, `value.String()`. -/
def Value.String : Value → String
  | .str s => s
  | _ => ""

/-- The zero test of `reflect.Value.IsZero`: `0` for an integer, the empty
text for a string. -/
def Value.IsZero : Value → Bool
  | .int n => n == 0
  | .str s => s == ""
  | .other z => z

/-- The source's `isZero`. -/
def isZero (v : Value) : Bool := v.IsZero

/-- Go's builtin `len` on a string: the number of bytes. -/
def len (s : String) : Int := (s.utf8ByteSize : Int)

/-! ## Rule maps -/

/-- A Go `map[string]string`. -/
abbrev TagMap := String → Option String

/-- The result of `make(map[string]string)`. -/
def TagMap.empty : TagMap := fun _ => none

/-- The assignment `m[k] = v`. -/
def TagMap.set (m : TagMap) (k v : String) : TagMap :=
  fun k' => if k' = k then some v else m k'

/-- The statement `delete(m, k)`. -/
def TagMap.erase (m : TagMap) (k : String) : TagMap :=
  fun k' => if k' = k then none else m k'

/-- The one-result index expression `m[k]`: the zero value `""` when the key
is absent. -/
def TagMap.index (m : TagMap) (k : String) : String := (m k).getD ""

/-! ## `strings.Split` and `strings.SplitN` for a one-character separator -/

/-- Cut a text at the first occurrence of `sep`: the text before it and the
text after it, or `none` when `sep` does not occur. -/
def cutChars (sep : Char) : List Char → Option (List Char × List Char)
  | [] => none
  | c :: cs =>
    if c = sep then some ([], cs)
    else match cutChars sep cs with
      | none => none
      | some (a, b) => some (c :: a, b)

/-- Split a text at every occurrence of `sep`. -/
def splitChars (sep : Char) : List Char → List (List Char)
  | [] => [[]]
  | c :: cs =>
    if c = sep then [] :: splitChars sep cs
    else match splitChars sep cs with
      | [] => [[c]]
      | t :: ts => (c :: t) :: ts

/-- The call `strings.Split(s, sep)` with a one-character separator. -/
def strings.Split (s : String) (sep : Char) : List String :=
  (splitChars sep s.data).map String.mk

/-- The call `strings.SplitN(s, sep, n)` with a one-character separator and
`n ≥ 0`: at most `n` pieces, the last one being the unsplit remainder. -/
def splitNChars (sep : Char) : Nat → List Char → List (List Char)
  | 0, _ => []
  | 1, s => [s]
  | n + 2, s =>
    match cutChars sep s with
    | none => [s]
    | some (a, b) => a :: splitNChars sep (n + 1) b

/-- The call `strings.SplitN(s, sep, n)`. -/
def strings.SplitN (s : String) (sep : Char) (n : Nat) : List String :=
  (splitNChars sep n s.data).map String.mk

/-! ## `parseTags` -/

/-- The body of the loop of `parseTags` for one token `t`. -/
def parseTagsStep (tagMap : TagMap) (t : String) : TagMap :=
  let parts := strings.SplitN t '=' 2
  if parts.length = 2 then tagMap.set (parts.getD 0 "") (parts.getD 1 "")
  else tagMap.set (parts.getD 0 "") ""

/-- The source's `parseTags`. -/
def parseTags (tag : String) : TagMap :=
  (strings.Split tag ',').foldl parseTagsStep TagMap.empty

/-! ## `strconv.Atoi` -/

/-- The two errors of package `strconv`: `ErrSyntax` and `ErrRange`. -/
inductive NumError where
  | invalid
  | outOfRange
  deriving DecidableEq, Repr

/-- The largest `uint64`. -/
def maxUint64 : Nat := 2 ^ 64 - 1

/-- The value `c - '0'` of a digit. -/
def digitVal (c : Char) : Nat := c.toNat - 48

/-- The digit loop of `strconv.ParseUint(s, 10, 64)`, `n` being the value
read so far: a character that is not a decimal digit is a syntax error; a
value that leaves the `uint64` range stops the loop with the largest value
and a range error. -/
def parseUintLoop : List Char → Nat → Nat × Option NumError
  | [], n => (n, none)
  | c :: cs, n =>
    if !c.isDigit then (0, some .invalid)
    else if n ≥ maxUint64 / 10 + 1 then (maxUint64, some .outOfRange)
    else
      let n10 := n * 10 % 2 ^ 64
      let n1 := (n10 + digitVal c) % 2 ^ 64
      if n1 < n10 ∨ n1 > maxUint64 then (maxUint64, some .outOfRange)
      else parseUintLoop cs n1

/-- The call `strconv.ParseUint(s, 10, 64)`. -/
def ParseUint (s : List Char) : Nat × Option NumError :=
  if s = [] then (0, some .invalid) else parseUintLoop s 0

/-- The call `strconv.ParseInt(s, 10, 0)` on a 64-bit platform: an optional
sign, then `ParseUint`; a syntax error gives `0`, a value outside the `int64`
range gives the nearest bound together with a range error. -/
def ParseInt (s : List Char) : Int × Option NumError :=
  if s = [] then (0, some .invalid)
  else
    let neg := s.head? = some '-'
    let body := if s.head? = some '+' ∨ s.head? = some '-' then s.tail else s
    let (un, err) := ParseUint body
    if err = some .invalid then (0, err)
    else
      let cutoff : Nat := 2 ^ 63
      if ¬ neg ∧ un ≥ cutoff then ((cutoff : Int) - 1, some .outOfRange)
      else if neg ∧ un > cutoff then (-(cutoff : Int), some .outOfRange)
      else (if neg then -(un : Int) else (un : Int), none)

/-- The digit loop of the fast path of `strconv.Atoi`; `none` is the syntax
error. -/
def atoiFastLoop : List Char → Int → Option Int
  | [], n => some n
  | c :: cs, n =>
    if !c.isDigit then none
    else atoiFastLoop cs (n * 10 + (digitVal c : Int))

/-- The function `strconv.Atoi` on a 64-bit platform: texts of 1 to 18 bytes
take the fast path, all others go through `ParseInt`. -/
def Atoi (s : String) : Int × Option NumError :=
  let sLen := s.utf8ByteSize
  if 0 < sLen ∧ sLen < 19 then
    let s0 := s.data
    let signed := s0.head? = some '-' ∨ s0.head? = some '+'
    let body := if signed then s0.tail else s0
    if signed ∧ body.length < 1 then (0, some .invalid)
    else
      match atoiFastLoop body 0 with
      | none => (0, some .invalid)
      | some n => (if s0.head? = some '-' then -n else n, none)
  else ParseInt s.data

/-- The source's `parseInt`: the value of `strconv.Atoi`, its error dropped. -/
def parseInt (str : String) : Int := (Atoi str).1

/-! ## Regular expressions and `isValidEmail` -/

/-- Regular expressions over characters.  A character class is a list of
inclusive ranges, as written between `[` and `]`. -/
inductive Regex where
  | empty
  | eps
  | cls (ranges : List (Char × Char))
  | seq (r s : Regex)
  | alt (r s : Regex)
  | star (r : Regex)
  deriving Repr

/-- Membership of a character in a class. -/
def inClass (ranges : List (Char × Char)) (c : Char) : Bool :=
  ranges.any fun r => decide (r.1 ≤ c) && decide (c ≤ r.2)

/-- Whether the expression matches the empty text. -/
def Regex.nullable : Regex → Bool
  | .empty => false
  | .eps => true
  | .cls _ => false
  | .seq r s => r.nullable && s.nullable
  | .alt r s => r.nullable || s.nullable
  | .star _ => true

/-- The derivative of an expression by a character. -/
def Regex.deriv : Regex → Char → Regex
  | .empty, _ => .empty
  | .eps, _ => .empty
  | .cls rs, c => if inClass rs c then .eps else .empty
  | .seq r s, c =>
    if r.nullable then .alt (.seq (r.deriv c) s) (s.deriv c)
    else .seq (r.deriv c) s
  | .alt r s, c => .alt (r.deriv c) (s.deriv c)
  | .star r, c => .seq (r.deriv c) (.star r)

/-- Whether the expression matches the whole text. -/
def Regex.matchChars (r : Regex) : List Char → Bool
  | [] => r.nullable
  | c :: cs => (r.deriv c).matchChars cs

/-- The literal character `c`. -/
def Regex.chr (c : Char) : Regex := .cls [(c, c)]

/-- The repetition `r+`. -/
def Regex.plus (r : Regex) : Regex := .seq r (.star r)

/-- The repetition `r{n,}`. -/
def Regex.atLeast : Nat → Regex → Regex
  | 0, r => .star r
  | n + 1, r => .seq r (Regex.atLeast n r)

/-- The class `[a-zA-Z0-9._%+-]`. -/
def localClass : List (Char × Char) :=
  [('a', 'z'), ('A', 'Z'), ('0', '9'), ('.', '.'), ('_', '_'), ('%', '%'), ('+', '+'),
    ('-', '-')]

/-- The class `[a-zA-Z0-9.-]`. -/
def domainClass : List (Char × Char) :=
  [('a', 'z'), ('A', 'Z'), ('0', '9'), ('.', '.'), ('-', '-')]

/-- The class `[a-zA-Z]`. -/
def letterClass : List (Char × Char) := [('a', 'z'), ('A', 'Z')]

/-- The body of the pattern `^[a-zA-Z0-9._%+-]+@[a-zA-Z0-9.-]+\.[a-zA-Z]{2,}$`,
between its two anchors. -/
def emailRegex : Regex :=
  .seq (Regex.plus (.cls localClass))
    (.seq (Regex.chr '@')
      (.seq (Regex.plus (.cls domainClass))
        (.seq (Regex.chr '.') (Regex.atLeast 2 (.cls letterClass)))))

/-- The method `MatchString` for a pattern anchored by `^` and `$` (no flags):
the pattern has a match in the text exactly when its body matches the whole
text. -/
def Regex.MatchString (re : Regex) (s : String) : Bool := re.matchChars s.data

/-- The source's `isValidEmail`. -/
def isValidEmail (email : String) : Bool := emailRegex.MatchString email

/-! ## `validateField` -/

/-- Equality of two results is decidable. -/
instance instDecidableEqResult : DecidableEq (Except String Unit)
  | .ok _, .ok _ => isTrue rfl
  | .error a, .error b =>
    if h : a = b then isTrue (by rw [h]) else isFalse (fun h2 => h (by injection h2))
  | .ok _, .error _ => isFalse (fun h => by cases h)
  | .error _, .ok _ => isFalse (fun h => by cases h)

/-- The source's `validateField`; `Except.error msg` is the returned error,
`Except.ok ()` is `nil`. -/
def validateField (_name : String) (value : Value) (tagMap : TagMap) : Except String Unit := do
  if tagMap.index "required" ≠ "" then
    if isZero value then
      throw "is required"
  if let some minVal := tagMap "min" then
    if value.Kind = Kind.Int then
      if value.Int < parseInt minVal then
        throw ("must be >= " ++ minVal)
  if let some maxVal := tagMap "max" then
    if value.Kind = Kind.Int then
      if value.Int > parseInt maxVal then
        throw ("must be <= " ++ maxVal)
  if let some minLen := tagMap "minLen" then
    if value.Kind = Kind.String then
      if len value.String < parseInt minLen then
        throw ("length must be >= " ++ minLen)
  if let some maxLen := tagMap "maxLen" then
    if value.Kind = Kind.String then
      if len value.String > parseInt maxLen then
        throw ("length must be <= " ++ maxLen)
  if (tagMap "email").isSome then
    if value.Kind = Kind.String then
      if !isValidEmail value.String then
        throw "must be a valid email"
  return ()

/-! ## `Validate` -/

/-- The source's `ValidationError`. -/
structure ValidationError where
  Field : String
  Err : String
  deriving DecidableEq, Repr

/-- The method `ValidationError.Error`. -/
def ValidationError.Error (e : ValidationError) : String :=
  "Field " ++ e.Field ++ ": " ++ e.Err

/-- A field of a struct as reflection presents it: its name, the value of its
`validate` tag (`field.Tag.Get("validate")`, empty when there is none) and its
value. -/
structure StructField where
  Name : String
  Tag : String
  Value : Value
  deriving DecidableEq, Repr

/-- An argument of `Validate`: a struct with its fields in declaration order,
or a value of any other kind. -/
inductive Input where
  | struct (fields : List StructField)
  | nonStruct
  deriving DecidableEq, Repr

/-- The body of the loop of `Validate` for one field. -/
def validateStep (validationErrors : List ValidationError) (field : StructField) :
    List ValidationError :=
  let tags := field.Tag
  if tags = "" then validationErrors
  else
    let tagMap := parseTags tags
    match validateField field.Name field.Value tagMap with
    | .error err => validationErrors ++ [{ Field := field.Name, Err := err }]
    | .ok _ => validationErrors

/-- The loop of `Validate`: the slice `validationErrors` once every field has
been visited. -/
def collectErrors (fields : List StructField) : List ValidationError :=
  fields.foldl validateStep []

/-- The verb `%v` of package `fmt` on a slice of `ValidationError`: the
elements' `Error()` texts between brackets, separated by one space. -/
def formatErrors (errs : List ValidationError) : String :=
  "[" ++ " ".intercalate (errs.map ValidationError.Error) ++ "]"

/-- The source's `Validate`. -/
def Validate (input : Input) : Except String Unit :=
  match input with
  | .nonStruct => .error "input must be a struct"
  | .struct fields =>
    let validationErrors := collectErrors fields
    if validationErrors.length > 0 then
      .error ("validation errors: " ++ formatErrors validationErrors)
    else .ok ()

/-- The record type `Avenger` of the source: its field names and `validate`
tags, in declaration order, around the five field values. -/
def AvengerFields (Name : String) (Age : Int) (Email : String) (Rank : String)
    (Missions : Int) : List StructField :=
  [ { Name := "Name", Tag := "required,minLen=3,maxLen=50", Value := .str Name },
    { Name := "Age", Tag := "required,min=18,max=100", Value := .int Age },
    { Name := "Email", Tag := "required,email", Value := .str Email },
    { Name := "Rank", Tag := "maxLen=20", Value := .str Rank },
    { Name := "Missions", Tag := "min=1", Value := .int Missions } ]

/-- A value of type `Avenger` handed to `Validate`. -/
def Avenger (Name : String) (Age : Int) (Email : String) (Rank : String) (Missions : Int) :
    Input :=
  .struct (AvengerFields Name Age Email Rank Missions)

/-- The fields of the record validated by the source's `main`. -/
def steveFields : List StructField :=
  AvengerFields "Steve Rogers" 105 "steve.rogers@avengers.com" "Captain" 10

/-- The record validated by the source's `main`. -/
def steve : Input := Avenger "Steve Rogers" 105 "steve.rogers@avengers.com" "Captain" 10

/-! ## `validateField`, block by block -/

/-- The six rules that `validateField` recognises. -/
inductive Rule where
  | required
  | min
  | max
  | minLen
  | maxLen
  | email
  deriving DecidableEq, Repr

/-- The error that the block of `validateField` for one rule returns, were it
run alone: the condition and the message of that `if` statement of the code,
`none` when the block falls through.  A device of the proofs, which lets
`validateField` be treated one block at a time; it is no statement of what the
rules ought to do. -/
def Rule.block : Rule → Value → TagMap → Option String
  | .required, v, m =>
    if m.index "required" ≠ "" ∧ isZero v = true then some "is required" else none
  | .min, v, m =>
    match m "min" with
    | some a =>
      if v.Kind = Kind.Int ∧ v.Int < parseInt a then some ("must be >= " ++ a) else none
    | none => none
  | .max, v, m =>
    match m "max" with
    | some a =>
      if v.Kind = Kind.Int ∧ v.Int > parseInt a then some ("must be <= " ++ a) else none
    | none => none
  | .minLen, v, m =>
    match m "minLen" with
    | some a =>
      if v.Kind = Kind.String ∧ len v.String < parseInt a then
        some ("length must be >= " ++ a)
      else none
    | none => none
  | .maxLen, v, m =>
    match m "maxLen" with
    | some a =>
      if v.Kind = Kind.String ∧ len v.String > parseInt a then
        some ("length must be <= " ++ a)
      else none
    | none => none
  | .email, v, m =>
    if (m "email").isSome ∧ v.Kind = Kind.String ∧ isValidEmail v.String = false then
      some "must be a valid email"
    else none

/-- The order in which `validateField` runs its blocks, which is the priority
order of the rules in the specification. -/
def Rule.priority : List Rule := [.required, .min, .max, .minLen, .maxLen, .email]

/-- The error of the first block of `validateField`, in the order of the code,
that returns one. -/
def firstBlockError (v : Value) (m : TagMap) : Option String :=
  Rule.priority.findSome? fun r => r.block v m

/-- An optional reason as a result: an error when there is one, `nil` otherwise. -/
def toResult : Option String → Except String Unit
  | some e => .error e
  | none => .ok ()

/-! ## Specification-side notions -/

/-- The reason with which a rule fails on a value, in the words of section 4.2
of the specification; `none` when it does not fail.  `required` fails on the
zero value of the value's kind, the presence of the key sufficing whatever its
argument.  `min` and `max` apply to integers only and fail when the value is
below, respectively above, the argument parsed as an integer.  `minLen` and
`maxLen` apply to texts only and fail when the length is below, respectively
above, the argument.  `email` applies to texts only, is a flag, and fails when
the text does not match the email grammar.  The argument is parsed by
`parseInt` and the length is `len`. -/
def Rule.specFailure : Rule → Value → TagMap → Option String
  | .required, v, m =>
    if (m "required").isSome ∧ v.IsZero = true then some "is required" else none
  | .min, v, m =>
    match m "min" with
    | some a =>
      if v.Kind = Kind.Int ∧ v.Int < parseInt a then some ("must be >= " ++ a) else none
    | none => none
  | .max, v, m =>
    match m "max" with
    | some a =>
      if v.Kind = Kind.Int ∧ v.Int > parseInt a then some ("must be <= " ++ a) else none
    | none => none
  | .minLen, v, m =>
    match m "minLen" with
    | some a =>
      if v.Kind = Kind.String ∧ len v.String < parseInt a then
        some ("length must be >= " ++ a)
      else none
    | none => none
  | .maxLen, v, m =>
    match m "maxLen" with
    | some a =>
      if v.Kind = Kind.String ∧ len v.String > parseInt a then
        some ("length must be <= " ++ a)
      else none
    | none => none
  | .email, v, m =>
    if (m "email").isSome ∧ v.Kind = Kind.String ∧ isValidEmail v.String = false then
      some "must be a valid email"
    else none

/-- The reason of the first rule, in the priority order of the specification,
that fails in the sense of the specification. -/
def specFirstFailure (v : Value) (m : TagMap) : Option String :=
  Rule.priority.findSome? fun r => r.specFailure v m

/-- The violation that a field contributes to the report, in the words of the
specification: nothing for a field without annotation; otherwise the reason
that `validateField` returns for the parsed annotation, if any, under the
field's name. -/
def fieldViolation (f : StructField) : Option ValidationError :=
  if f.Tag = "" then none
  else
    match validateField f.Name f.Value (parseTags f.Tag) with
    | .error e => some { Field := f.Name, Err := e }
    | .ok _ => none

/-- The value of a run of decimal digits. -/
def digitsValue (ds : List Char) : Nat := ds.foldl (fun n c => n * 10 + digitVal c) 0

/-- The integer that a decimal literal denotes: an optional `-` followed by
one or more decimal digits; `none` for any other text. -/
def decimalValue? (s : String) : Option Int :=
  if s.data.head? = some '-' then
    let ds := s.data.tail
    if ds ≠ [] ∧ ds.all Char.isDigit = true then some (-(digitsValue ds : Int)) else none
  else
    let ds := s.data
    if ds ≠ [] ∧ ds.all Char.isDigit = true then some (digitsValue ds : Int) else none

/-- The rule name of a token, in the words of the specification: the text
before its first `=`, the whole token when it has none. -/
def tokenName (t : String) : String := String.mk (t.data.takeWhile (· ≠ '='))

/-- The rule argument of a token, in the words of the specification: the text
after its first `=`, the empty text when it has none. -/
def tokenArg (t : String) : String := String.mk (t.data.dropWhile (· ≠ '=')).tail

/-- A character allowed in the local part of an address, in the words of the
specification: an ASCII letter or digit, or one of `.`, `_`, `%`, `+`, `-`. -/
def isLocalChar (c : Char) : Bool :=
  c.isAlpha || c.isDigit || c == '.' || c == '_' || c == '%' || c == '+' || c == '-'

/-- A character allowed in the domain of an address, in the words of the
specification: an ASCII letter or digit, or one of `.`, `-`. -/
def isDomainChar (c : Char) : Bool :=
  c.isAlpha || c.isDigit || c == '.' || c == '-'

/-! ## The profile endpoint (`restful_api/main.go`) -/

/-- The source's `Profile`. -/
structure Profile where
  Name : String
  Age : Int
  deriving DecidableEq, Repr

/-- What `createProfileHandler` writes to its `http.ResponseWriter`: the status
code, the `Content-Type` header and the member `message` of the JSON object
that it encodes as the body. -/
structure Response where
  Status : Nat
  ContentType : String
  Message : String
  deriving DecidableEq, Repr

/-- The constant `http.StatusBadRequest`. -/
def StatusBadRequest : Nat := 400

/-- The constant `http.StatusCreated`. -/
def StatusCreated : Nat := 201

/-- The source's `createProfileHandler` on a request with the given body.  The
JSON decoder of the standard library is a parameter: `Decode body` is the
outcome of `json.NewDecoder(r.Body).Decode(&t)` for a fresh `Profile`, either
an error or the decoded value of `t`. -/
def createProfileHandler (Decode : String → Except String Profile) (body : String) : Response :=
  match Decode body with
  | .error _ =>
    { Status := StatusBadRequest, ContentType := "application/json",
      Message := "Invalid Body Input" }
  | .ok t =>
    if t.Name = "" ∨ t.Age ≤ 0 then
      { Status := StatusBadRequest, ContentType := "application/json",
        Message := "Invalid Body Input" }
    else
      { Status := StatusCreated, ContentType := "application/json",
        Message := "Profile created successfully" }

/-! # Theorems -/

/-! ## `validateField` as a search through its blocks -/

theorem throw_bind_eq (e : String) (k : PUnit → Except String Unit) :
    ((throw e : Except String PUnit) >>= k) = .error e := rfl

theorem pure_bind_eq (k : PUnit → Except String Unit) :
    ((pure PUnit.unit : Except String PUnit) >>= k) = k PUnit.unit := rfl

theorem toResult_findSome_cons (f : Rule → Option String) (r : Rule) (rs : List Rule) :
    toResult ((r :: rs).findSome? f) =
      match f r with
      | some e => .error e
      | none => toResult (rs.findSome? f) := by
  simp only [List.findSome?]
  cases f r <;> rfl

/-- The early returns of `validateField` amount to a search for the first of
its blocks that returns an error. -/
theorem validateField_flat (name : String) (v : Value) (m : TagMap) :
    validateField name v m = toResult (firstBlockError v m) := by
  unfold validateField firstBlockError Rule.priority
  lift_lets
  intro j6 j5 j4 j3 j2 j1
  have h5 : ∀ y, j5 y = toResult ([Rule.email].findSome? fun r => r.block v m) := by
    intro y
    rw [toResult_findSome_cons]
    simp only [j5, j6, Rule.block, throw_bind_eq, pure_bind_eq, List.findSome?, toResult]
    split_ifs <;> simp_all [pure, Except.pure]
  have h4 : ∀ y, j4 y = toResult ([Rule.maxLen, .email].findSome? fun r => r.block v m) := by
    intro y
    rw [toResult_findSome_cons, ← h5 y]
    simp only [j4, Rule.block, throw_bind_eq, pure_bind_eq]
    cases m "maxLen"
    · rfl
    · simp only []; split_ifs <;> simp_all
  have h3 : ∀ y, j3 y =
      toResult ([Rule.minLen, .maxLen, .email].findSome? fun r => r.block v m) := by
    intro y
    rw [toResult_findSome_cons, ← h4 y]
    simp only [j3, Rule.block, throw_bind_eq, pure_bind_eq]
    cases m "minLen"
    · rfl
    · simp only []; split_ifs <;> simp_all
  have h2 : ∀ y, j2 y =
      toResult ([Rule.max, .minLen, .maxLen, .email].findSome? fun r => r.block v m) := by
    intro y
    rw [toResult_findSome_cons, ← h3 y]
    simp only [j2, Rule.block, throw_bind_eq, pure_bind_eq]
    cases m "max"
    · rfl
    · simp only []; split_ifs <;> simp_all
  have h1 : ∀ y, j1 y =
      toResult ([Rule.min, .max, .minLen, .maxLen, .email].findSome? fun r => r.block v m) := by
    intro y
    rw [toResult_findSome_cons, ← h2 y]
    simp only [j1, Rule.block, throw_bind_eq, pure_bind_eq]
    cases m "min"
    · rfl
    · simp only []; split_ifs <;> simp_all
  rw [toResult_findSome_cons, ← h1 PUnit.unit]
  simp only [Rule.block, throw_bind_eq, pure_bind_eq]
  split_ifs <;> simp_all

/-! ## The `required` rule (C1) -/

/-- C1, evaluated on the code: the bare token `required` puts the key `required`
in the rule map with the empty argument, and with that map `validateField`
accepts the zero value of either kind; an `Avenger` whose `Name` is empty is
reported for its length, not as missing. -/
theorem validateField_bare_required_accepts_zero :
    parseTags "required" "required" = some "" ∧
    isZero (.str "") = true ∧ isZero (.int 0) = true ∧
    validateField "Name" (.str "") (parseTags "required") = .ok () ∧
    validateField "Age" (.int 0) (parseTags "required") = .ok () ∧
    collectErrors (AvengerFields "" 18 "a@b.co" "" 1) =
      [{ Field := "Name", Err := "length must be >= 3" }] := by
  decide

/-! ## The record of `main` (C2) -/

/-- C2: validating the record of `main` collects exactly one violation, on `Age`
with reason "must be <= 100"; the check of every other field returns `nil`. -/
theorem Validate_steve :
    collectErrors steveFields = [{ Field := "Age", Err := "must be <= 100" }] ∧
    Validate steve = .error "validation errors: [Field Age: must be <= 100]" ∧
    steveFields.map (fun f => (f.Name, validateField f.Name f.Value (parseTags f.Tag))) =
      [("Name", .ok ()), ("Age", .error "must be <= 100"), ("Email", .ok ()),
        ("Rank", .ok ()), ("Missions", .ok ())] := by
  decide

/-! ## Collect-all semantics of `Validate` (C3) -/

theorem validateStep_eq (acc : List ValidationError) (f : StructField) :
    validateStep acc f = acc ++ (fieldViolation f).toList := by
  unfold validateStep fieldViolation
  by_cases h : f.Tag = ""
  · simp [h]
  · simp only [h, if_false]
    cases validateField f.Name f.Value (parseTags f.Tag) <;> simp

theorem foldl_validateStep (fields : List StructField) (acc : List ValidationError) :
    fields.foldl validateStep acc = acc ++ fields.filterMap fieldViolation := by
  induction fields generalizing acc with
  | nil => simp
  | cons f fs ih =>
    rw [List.foldl_cons, ih, validateStep_eq, List.filterMap_cons]
    cases fieldViolation f <;> simp

theorem collectErrors_eq (fields : List StructField) :
    collectErrors fields = fields.filterMap fieldViolation := by
  simp [collectErrors, foldl_validateStep]

theorem Validate_struct (fields : List StructField) :
    Validate (.struct fields) =
      if collectErrors fields = [] then .ok ()
      else .error ("validation errors: " ++ formatErrors (collectErrors fields)) := by
  simp only [Validate]
  generalize collectErrors fields = errs
  cases errs <;> simp

/-- C3: the violations that `Validate` collects are the violations of the
fields, one at most per field, in declaration order; what a field contributes
does not depend on the fields before or after it; and `Validate` returns `nil`
exactly when nothing was collected. -/
theorem Validate_collects_all (fields : List StructField) :
    collectErrors fields = fields.filterMap fieldViolation ∧
    (∀ (pre post : List StructField) (f : StructField), fields = pre ++ f :: post →
      collectErrors fields =
        collectErrors pre ++ (fieldViolation f).toList ++ collectErrors post) ∧
    (Validate (.struct fields) = .ok () ↔ collectErrors fields = []) ∧
    (∀ msg, Validate (.struct fields) = .error msg →
      msg = "validation errors: " ++ formatErrors (fields.filterMap fieldViolation)) := by
  refine ⟨collectErrors_eq fields, ?_, ?_, ?_⟩
  · intro pre post f h
    subst h
    simp only [collectErrors_eq, List.filterMap_append, List.filterMap_cons]
    cases fieldViolation f <;> simp
  · rw [Validate_struct]
    split_ifs with h <;> simp [h]
  · intro msg
    rw [Validate_struct, ← collectErrors_eq]
    split_ifs with h
    · intro h2
      cases h2
    · intro h2
      injection h2 with h2
      exact h2.symm

/-! ## `parseInt` on decimal literals -/

theorem digitVal_le_of_isDigit (c : Char) (h : c.isDigit = true) : digitVal c ≤ 9 := by
  simp only [Char.isDigit, Bool.and_eq_true, decide_eq_true_eq] at h
  have h2 : c.val.toNat ≤ 57 := h.2
  simp only [digitVal, Char.toNat]
  omega

theorem foldl_digit_le (ds : List Char) (n : Nat) :
    n ≤ ds.foldl (fun n c => n * 10 + digitVal c) n := by
  induction ds generalizing n with
  | nil => simp
  | cons c cs ih =>
    simp only [List.foldl_cons]
    exact le_trans (by omega) (ih _)

theorem atoiFastLoop_digits (ds : List Char) (n : Nat) (h : ds.all Char.isDigit = true) :
    atoiFastLoop ds (n : Int) =
      some ((ds.foldl (fun n c => n * 10 + digitVal c) n : Nat) : Int) := by
  induction ds generalizing n with
  | nil => simp [atoiFastLoop]
  | cons c cs ih =>
    simp only [List.all_cons, Bool.and_eq_true] at h
    simp only [atoiFastLoop, h.1, Bool.not_true, Bool.false_eq_true, if_false, List.foldl_cons]
    have := ih (n * 10 + digitVal c) h.2
    rw [← this]
    push_cast
    rfl

theorem parseUintLoop_digits (ds : List Char) (n : Nat) (h : ds.all Char.isDigit = true)
    (hr : ds.foldl (fun n c => n * 10 + digitVal c) n < 2 ^ 64) :
    parseUintLoop ds n = (ds.foldl (fun n c => n * 10 + digitVal c) n, none) := by
  induction ds generalizing n with
  | nil => simp [parseUintLoop]
  | cons c cs ih =>
    simp only [List.all_cons, Bool.and_eq_true] at h
    simp only [List.foldl_cons] at hr ⊢
    have hle := foldl_digit_le cs (n * 10 + digitVal c)
    have hd := digitVal_le_of_isDigit c h.1
    have h1 : n * 10 + digitVal c < 2 ^ 64 := lt_of_le_of_lt hle hr
    have h2 : n * 10 % 2 ^ 64 = n * 10 := Nat.mod_eq_of_lt (by omega)
    have h3 : (n * 10 + digitVal c) % 2 ^ 64 = n * 10 + digitVal c := Nat.mod_eq_of_lt h1
    have h4 : ¬ (n ≥ maxUint64 / 10 + 1) := by
      simp only [maxUint64]; omega
    simp only [parseUintLoop, h.1, Bool.not_true, Bool.false_eq_true, if_false, h4, h2, h3]
    have h5 : ¬ (n * 10 + digitVal c < n * 10 ∨ n * 10 + digitVal c > maxUint64) := by
      simp only [maxUint64]; omega
    rw [if_neg h5]
    exact ih _ h.2 hr

theorem isDigit_ne_sign (c : Char) (h : c.isDigit = true) : c ≠ '-' ∧ c ≠ '+' := by
  constructor <;> (intro hc; subst hc; revert h; decide)

theorem ParseInt_neg_digits (ds : List Char) (hne : ds ≠ []) (h : ds.all Char.isDigit = true)
    (hr : digitsValue ds ≤ 2 ^ 63) :
    ParseInt ('-' :: ds) = (-(digitsValue ds : Int), none) := by
  have hu : ParseUint ds = (digitsValue ds, none) := by
    simp only [ParseUint, hne, if_false]
    exact parseUintLoop_digits ds 0 h (lt_of_le_of_lt hr (by norm_num))
  simp [ParseInt, hu]
  omega

theorem ParseInt_digits (ds : List Char) (hne : ds ≠ []) (h : ds.all Char.isDigit = true)
    (hr : digitsValue ds < 2 ^ 63) :
    ParseInt ds = ((digitsValue ds : Int), none) := by
  have hu : ParseUint ds = (digitsValue ds, none) := by
    simp only [ParseUint, hne, if_false]
    exact parseUintLoop_digits ds 0 h (lt_trans hr (by norm_num))
  obtain ⟨c, cs, rfl⟩ := List.exists_cons_of_ne_nil hne
  have hc : c.isDigit = true := by
    simp only [List.all_cons, Bool.and_eq_true] at h
    exact h.1
  obtain ⟨h1, h2⟩ := isDigit_ne_sign c hc
  rw [ParseInt]
  simp only [List.head?_cons, Option.some.injEq, h1, h2, or_self, if_false, hu]
  simp
  omega

theorem Atoi_neg_digits (s : String) (ds : List Char) (hs : s.data = '-' :: ds) (hne : ds ≠ [])
    (h : ds.all Char.isDigit = true) (hr : digitsValue ds ≤ 2 ^ 63) :
    Atoi s = (-(digitsValue ds : Int), none) := by
  by_cases hfast : 0 < s.utf8ByteSize ∧ s.utf8ByteSize < 19
  · have hl : ¬ ds.length < 1 := by
      cases ds with
      | nil => exact absurd rfl hne
      | cons c cs => simp
    have := atoiFastLoop_digits ds 0 h
    simp only [Nat.cast_zero] at this
    simp only [Atoi, if_pos hfast, hs, List.head?_cons, List.tail_cons, true_or, if_true,
      hl, and_false, if_false, this, digitsValue]
  · simp only [Atoi, if_neg hfast, hs]
    exact ParseInt_neg_digits ds hne h hr

theorem Atoi_digits (s : String) (hne : s.data ≠ [])
    (h : s.data.all Char.isDigit = true) (hr : digitsValue s.data < 2 ^ 63) :
    Atoi s = ((digitsValue s.data : Int), none) := by
  by_cases hfast : 0 < s.utf8ByteSize ∧ s.utf8ByteSize < 19
  · obtain ⟨c, cs, hcs⟩ := List.exists_cons_of_ne_nil hne
    have hc : c.isDigit = true := by
      rw [hcs] at h
      simp only [List.all_cons, Bool.and_eq_true] at h
      exact h.1
    obtain ⟨h1, h2⟩ := isDigit_ne_sign c hc
    have := atoiFastLoop_digits s.data 0 h
    simp only [Nat.cast_zero] at this
    rw [hcs] at this
    simp only [Atoi, if_pos hfast, hcs, List.head?_cons, Option.some.injEq, h1, h2, or_self,
      if_false, false_and, this, digitsValue]
  · simp only [Atoi, if_neg hfast]
    exact ParseInt_digits s.data hne h hr

/-- On a decimal literal whose value fits `int`, `parseInt` returns that value. -/
theorem parseInt_of_decimal (s : String) (X : Int) (h : decimalValue? s = some X)
    (hlo : -(2 ^ 63) ≤ X) (hhi : X < 2 ^ 63) : parseInt s = X := by
  unfold decimalValue? at h
  by_cases hneg : s.data.head? = some '-'
  · simp only [if_pos hneg] at h
    by_cases hds : s.data.tail ≠ [] ∧ s.data.tail.all Char.isDigit = true
    · rw [if_pos hds] at h
      injection h with h
      subst h
      have hs : s.data = '-' :: s.data.tail := by
        cases hd : s.data with
        | nil => simp [hd] at hneg
        | cons c cs => simp [hd] at hneg; simp [hneg]
      simp only [parseInt]
      rw [Atoi_neg_digits s s.data.tail hs hds.1 hds.2 (by omega)]
    · rw [if_neg hds] at h
      cases h
  · simp only [if_neg hneg] at h
    by_cases hds : s.data ≠ [] ∧ s.data.all Char.isDigit = true
    · rw [if_pos hds] at h
      injection h with h
      subst h
      simp only [parseInt]
      rw [Atoi_digits s hds.1 hds.2 (by omega)]
    · rw [if_neg hds] at h
      cases h

/-! ## Splitting -/

theorem splitChars_ne_nil (sep : Char) (s : List Char) : splitChars sep s ≠ [] := by
  cases s with
  | nil => simp [splitChars]
  | cons c cs =>
    simp only [splitChars]
    split_ifs
    · simp
    · cases splitChars sep cs <;> simp

theorem splitChars_of_not_mem (sep : Char) (s : List Char) (h : sep ∉ s) :
    splitChars sep s = [s] := by
  induction s with
  | nil => rfl
  | cons c cs ih =>
    simp only [List.mem_cons, not_or] at h
    simp only [splitChars, if_neg (Ne.symm h.1), ih h.2]

theorem splitChars_append (sep : Char) (a b : List Char) (h : sep ∉ a) :
    splitChars sep (a ++ sep :: b) = a :: splitChars sep b := by
  induction a with
  | nil => simp [splitChars]
  | cons c cs ih =>
    simp only [List.mem_cons, not_or] at h
    rw [List.cons_append, splitChars, if_neg (Ne.symm h.1), ih h.2]

theorem intercalate_splitChars (sep : Char) (s : List Char) :
    [sep].intercalate (splitChars sep s) = s := by
  induction s with
  | nil => simp [splitChars, List.intercalate]
  | cons c cs ih =>
    simp only [splitChars]
    split_ifs with h
    · subst h
      have hne := splitChars_ne_nil c cs
      cases hs : splitChars c cs with
      | nil => exact absurd hs hne
      | cons t ts =>
        rw [hs] at ih
        simp only [List.intercalate, List.intersperse] at ih ⊢
        simp [ih]
    · have hne := splitChars_ne_nil sep cs
      cases hs : splitChars sep cs with
      | nil => exact absurd hs hne
      | cons t ts =>
        rw [hs] at ih
        cases ts with
        | nil => simpa [List.intercalate] using ih
        | cons u us =>
          simp only [List.intercalate, List.intersperse] at ih ⊢
          simp only [List.flatten_cons, List.singleton_append, List.cons_append] at ih ⊢
          rw [ih]

theorem not_mem_of_mem_splitChars (sep : Char) (s t : List Char) (h : t ∈ splitChars sep s) :
    sep ∉ t := by
  induction s generalizing t with
  | nil =>
    simp only [splitChars, List.mem_singleton] at h
    subst h
    simp
  | cons c cs ih =>
    simp only [splitChars] at h
    split_ifs at h with hc
    · simp only [List.mem_cons] at h
      rcases h with h | h
      · subst h; simp
      · exact ih t h
    · cases hs : splitChars sep cs with
      | nil => exact absurd hs (splitChars_ne_nil sep cs)
      | cons u us =>
        rw [hs] at h ih
        simp only [List.mem_cons] at h
        rcases h with h | h
        · subst h
          simp only [List.mem_cons, not_or]
          exact ⟨Ne.symm hc, ih u (by simp)⟩
        · exact ih t (by simp [h])

theorem cutChars_eq (sep : Char) (s : List Char) :
    cutChars sep s =
      if sep ∈ s then some (s.takeWhile (· ≠ sep), (s.dropWhile (· ≠ sep)).tail) else none := by
  induction s with
  | nil => simp [cutChars]
  | cons c cs ih =>
    simp only [cutChars]
    by_cases hc : c = sep
    · subst hc
      simp
    · rw [if_neg hc, ih]
      by_cases hm : sep ∈ cs
      · simp [hm, hc, List.takeWhile_cons, List.dropWhile_cons]
      · simp [hm, Ne.symm hc]

theorem parseTagsStep_eq (m : TagMap) (t : String) :
    parseTagsStep m t = m.set (tokenName t) (tokenArg t) := by
  have hsplit : splitNChars '=' 2 t.data =
      match cutChars '=' t.data with
      | none => [t.data]
      | some (a, b) => [a, b] := by
    simp only [splitNChars]
  simp only [parseTagsStep, strings.SplitN, hsplit, cutChars_eq, tokenName, tokenArg]
  by_cases hm : '=' ∈ t.data
  · simp [hm]
  · have h1 : t.data.takeWhile (· ≠ '=') = t.data := by
      rw [List.takeWhile_eq_self_iff]
      intro c hc
      simp only [ne_eq, decide_eq_true_eq]
      rintro rfl
      exact hm hc
    have h2 : t.data.dropWhile (· ≠ '=') = [] := by
      rw [List.dropWhile_eq_nil_iff]
      intro c hc
      simp only [ne_eq, decide_eq_true_eq]
      rintro rfl
      exact hm hc
    simp only [ne_eq, decide_not] at h1 h2
    simp [hm, h1, h2]

theorem parseTags_eq_foldl (tag : String) :
    parseTags tag =
      (strings.Split tag ',').foldl (fun m t => m.set (tokenName t) (tokenArg t))
        TagMap.empty := by
  unfold parseTags
  congr 1
  funext m t
  exact parseTagsStep_eq m t

/-! ## Annotations of two valued rules -/

theorem tokenName_valued (k v : String) (hk : '=' ∉ k.data) :
    tokenName (k ++ "=" ++ v) = k := by
  have : (k ++ "=" ++ v).data = k.data ++ '=' :: v.data := by simp
  unfold tokenName
  rw [this, List.takeWhile_append_of_pos]
  · simp
  · intro c hc
    simp only [ne_eq, decide_eq_true_eq]
    rintro rfl
    exact hk hc

theorem tokenArg_valued (k v : String) (hk : '=' ∉ k.data) :
    tokenArg (k ++ "=" ++ v) = v := by
  have : (k ++ "=" ++ v).data = k.data ++ '=' :: v.data := by simp
  unfold tokenArg
  rw [this, List.dropWhile_append_of_pos]
  · simp
  · intro c hc
    simp only [ne_eq, decide_eq_true_eq]
    rintro rfl
    exact hk hc

theorem tokenName_flag (t : String) (h : '=' ∉ t.data) : tokenName t = t := by
  unfold tokenName
  have h1 : t.data.takeWhile (· ≠ '=') = t.data := by
    rw [List.takeWhile_eq_self_iff]
    intro c hc
    simp only [ne_eq, decide_eq_true_eq]
    rintro rfl
    exact h hc
  rw [h1]

theorem tokenArg_flag (t : String) (h : '=' ∉ t.data) : tokenArg t = "" := by
  unfold tokenArg
  have h2 : t.data.dropWhile (· ≠ '=') = [] := by
    rw [List.dropWhile_eq_nil_iff]
    intro c hc
    simp only [ne_eq, decide_eq_true_eq]
    rintro rfl
    exact h hc
  rw [h2]
  rfl

/-- The rule map of an annotation `k1=v1,k2=v2`. -/
theorem parseTags_two_valued (k1 v1 k2 v2 : String)
    (hk1 : '=' ∉ k1.data ∧ ',' ∉ k1.data) (hv1 : ',' ∉ v1.data)
    (hk2 : '=' ∉ k2.data ∧ ',' ∉ k2.data) (hv2 : ',' ∉ v2.data) :
    parseTags (k1 ++ "=" ++ v1 ++ "," ++ k2 ++ "=" ++ v2) =
      (TagMap.empty.set k1 v1).set k2 v2 := by
  have hd : (k1 ++ "=" ++ v1 ++ "," ++ k2 ++ "=" ++ v2).data =
      (k1.data ++ '=' :: v1.data) ++ ',' :: (k2.data ++ '=' :: v2.data) := by simp
  have h1 : ',' ∉ k1.data ++ '=' :: v1.data := by
    simp only [List.mem_append, List.mem_cons, not_or]
    exact ⟨hk1.2, by decide, hv1⟩
  have h2 : ',' ∉ k2.data ++ '=' :: v2.data := by
    simp only [List.mem_append, List.mem_cons, not_or]
    exact ⟨hk2.2, by decide, hv2⟩
  have hs : strings.Split (k1 ++ "=" ++ v1 ++ "," ++ k2 ++ "=" ++ v2) ',' =
      [k1 ++ "=" ++ v1, k2 ++ "=" ++ v2] := by
    simp only [strings.Split, hd, splitChars_append _ _ _ h1, splitChars_of_not_mem _ _ h2,
      List.map_cons, List.map_nil]
    congr 1
    · apply String.ext; simp
    · congr 1; apply String.ext; simp
  rw [parseTags_eq_foldl, hs]
  simp only [List.foldl_cons, List.foldl_nil, tokenName_valued _ _ hk1.1,
    tokenArg_valued _ _ hk1.1, tokenName_valued _ _ hk2.1, tokenArg_valued _ _ hk2.1]

theorem decimal_chars (s : String) (X : Int) (h : decimalValue? s = some X) :
    ∀ c ∈ s.data, c = '-' ∨ c.isDigit = true := by
  unfold decimalValue? at h
  by_cases hneg : s.data.head? = some '-'
  · simp only [if_pos hneg] at h
    by_cases hds : s.data.tail ≠ [] ∧ s.data.tail.all Char.isDigit = true
    · cases hd : s.data with
      | nil => simp [hd] at hneg
      | cons c cs =>
        simp only [hd, List.head?_cons, Option.some.injEq] at hneg
        simp only [hd, List.tail_cons, List.all_eq_true] at hds
        intro x hx
        simp only [List.mem_cons] at hx
        rcases hx with hx | hx
        · left; rw [hx, hneg]
        · right; exact hds.2 x hx
    · rw [if_neg hds] at h
      cases h
  · simp only [if_neg hneg] at h
    by_cases hds : s.data ≠ [] ∧ s.data.all Char.isDigit = true
    · intro x hx
      right
      exact (List.all_eq_true.mp hds.2) x hx
    · rw [if_neg hds] at h
      cases h

theorem decimal_no_separator (s : String) (X : Int) (h : decimalValue? s = some X) :
    ',' ∉ s.data ∧ '=' ∉ s.data := by
  have := decimal_chars s X h
  constructor <;> (intro hc; rcases this _ hc with h1 | h1 <;> revert h1 <;> decide)

/-! ## Integer bounds (C4) -/

theorem collectErrors_singleton (f : StructField) :
    collectErrors [f] = (fieldViolation f).toList := by
  simp [collectErrors_eq, List.filterMap_cons]
  cases fieldViolation f <;> simp

theorem validateField_min_max_eq (name : String) (v : Int) (lx ly : String) (X Y : Int)
    (hx : decimalValue? lx = some X) (hy : decimalValue? ly = some Y)
    (hX : -(2 ^ 63) ≤ X ∧ X < 2 ^ 63) (hY : -(2 ^ 63) ≤ Y ∧ Y < 2 ^ 63) :
    validateField name (.int v) (parseTags ("min=" ++ lx ++ "," ++ "max=" ++ ly)) =
      if v < X then .error ("must be >= " ++ lx)
      else if v > Y then .error ("must be <= " ++ ly)
      else .ok () := by
  have hp := parseTags_two_valued "min" lx "max" ly (by decide) (decimal_no_separator lx X hx).1
    (by decide) (decimal_no_separator ly Y hy).1
  have e : "min=" ++ lx ++ "," ++ "max=" ++ ly = "min" ++ "=" ++ lx ++ "," ++ "max" ++ "=" ++ ly := by
    apply String.ext; simp
  rw [e, hp, validateField_flat]
  have px := parseInt_of_decimal lx X hx hX.1 hX.2
  have py := parseInt_of_decimal ly Y hy hY.1 hY.2
  simp only [firstBlockError, Rule.priority, List.findSome?, Rule.block, TagMap.set, TagMap.index,
    TagMap.empty]
  simp [px, py, Value.Kind, Value.Int, toResult]
  split_ifs <;> simp_all [toResult]

/-- C4: an integer field annotated `min=X,max=Y`, the bounds written as decimal
literals `lx`, `ly` of integers `X`, `Y` of Go's `int` range, contributes no
violation when `X ≤ v ≤ Y`, the single violation "must be >= X" when `v < X`,
and otherwise the single violation "must be <= Y" when `v > Y`. -/
theorem validateField_min_max (name : String) (v : Int) (lx ly : String) (X Y : Int)
    (hx : decimalValue? lx = some X) (hy : decimalValue? ly = some Y)
    (hX : -(2 ^ 63) ≤ X ∧ X < 2 ^ 63) (hY : -(2 ^ 63) ≤ Y ∧ Y < 2 ^ 63) :
    (X ≤ v ∧ v ≤ Y →
      validateField name (.int v) (parseTags ("min=" ++ lx ++ ",max=" ++ ly)) = .ok () ∧
      collectErrors [{ Name := name, Tag := "min=" ++ lx ++ ",max=" ++ ly, Value := .int v }]
        = []) ∧
    (v < X →
      validateField name (.int v) (parseTags ("min=" ++ lx ++ ",max=" ++ ly))
        = .error ("must be >= " ++ lx) ∧
      collectErrors [{ Name := name, Tag := "min=" ++ lx ++ ",max=" ++ ly, Value := .int v }]
        = [{ Field := name, Err := "must be >= " ++ lx }]) ∧
    (¬ v < X → v > Y →
      validateField name (.int v) (parseTags ("min=" ++ lx ++ ",max=" ++ ly))
        = .error ("must be <= " ++ ly) ∧
      collectErrors [{ Name := name, Tag := "min=" ++ lx ++ ",max=" ++ ly, Value := .int v }]
        = [{ Field := name, Err := "must be <= " ++ ly }]) := by
  have e : "min=" ++ lx ++ ",max=" ++ ly = "min=" ++ lx ++ "," ++ "max=" ++ ly := by
    apply String.ext; simp
  have hne : ¬ ("min=" ++ lx ++ "," ++ "max=" ++ ly = "") := by
    intro h
    have := congrArg String.data h
    simp at this
  have key := validateField_min_max_eq name v lx ly X Y hx hy hX hY
  rw [e]
  simp only [collectErrors_singleton, fieldViolation, hne, if_false, key]
  refine ⟨fun h => ?_, fun h => ?_, fun h1 h2 => ?_⟩
  · have h1 : ¬ v < X := by omega
    have h2 : ¬ v > Y := by omega
    simp [h1, h2]
  · simp [h]
  · simp [h1, h2]

/-- C4 at `min=18,max=100` with the value 105 of the `Age` field of `main`. -/
theorem validateField_min_max_witness :
    validateField "Age" (.int 105) (parseTags ("min=" ++ "18" ++ ",max=" ++ "100"))
        = .error ("must be <= " ++ "100") ∧
      collectErrors
          [{ Name := "Age", Tag := "min=" ++ "18" ++ ",max=" ++ "100", Value := .int 105 }]
        = [{ Field := "Age", Err := "must be <= " ++ "100" }] :=
  (validateField_min_max "Age" 105 "18" "100" 18 100 (by decide) (by decide) (by decide)
    (by decide)).2.2 (by decide) (by decide)

/-! ## Priority order of the rules (C5) -/

theorem toResult_eq_ok (o : Option String) : toResult o = .ok () ↔ o = none := by
  cases o <;> simp [toResult]

theorem specFailure_eq_block (r : Rule) (v : Value) (m : TagMap)
    (h : m "required" ≠ some "") : r.specFailure v m = r.block v m := by
  cases r with
  | required =>
    have hiff : ((m "required").isSome = true ∧ v.IsZero = true) ↔
        ((m "required").getD "" ≠ "" ∧ isZero v = true) := by
      cases hm : m "required" with
      | none => simp
      | some a =>
        have ha : a ≠ "" := by
          rintro rfl
          exact h hm
        simp [ha, isZero]
    simp only [Rule.specFailure, Rule.block, TagMap.index]
    exact if_congr hiff rfl rfl
  | min => rfl
  | max => rfl
  | minLen => rfl
  | maxLen => rfl
  | email => rfl

/-- Apart from a `required` entry with the empty argument, `validateField`
returns the reason of the first rule, in priority order, that fails in the
sense of the specification, and `nil` exactly when no rule fails. -/
theorem validateField_spec_first_failure (name : String) (v : Value) (m : TagMap)
    (h : m "required" ≠ some "") :
    validateField name v m = toResult (specFirstFailure v m) ∧
    (validateField name v m = .ok () ↔ ∀ r ∈ Rule.priority, r.specFailure v m = none) := by
  have hf : (fun r : Rule => r.specFailure v m) = fun r : Rule => r.block v m := by
    funext r
    exact specFailure_eq_block r v m h
  have h1 : validateField name v m = toResult (specFirstFailure v m) := by
    rw [validateField_flat, specFirstFailure, firstBlockError, hf]
  refine ⟨h1, ?_⟩
  rw [h1, toResult_eq_ok, specFirstFailure, List.findSome?_eq_none_iff]

/-- C5, evaluated on the code: the text "" under the annotation
`required,minLen=3` has `required` present and is the zero value, so `required` is
the first failing rule and its reason "is required" is due; `validateField`
returns the reason of `minLen` instead.  Under the annotation `required` alone
the integer 0 fails `required`, yet `validateField` returns `nil`.  The example
of the claim, a text violating both `minLen` and `email`, is reported for
`minLen`. -/
theorem validateField_misses_first_failing_rule :
    (parseTags "required,minLen=3" "required" = some "" ∧ isZero (.str "") = true ∧
      Rule.required.specFailure (.str "") (parseTags "required,minLen=3") = some "is required" ∧
      specFirstFailure (.str "") (parseTags "required,minLen=3") = some "is required" ∧
      validateField "Name" (.str "") (parseTags "required,minLen=3")
        = .error "length must be >= 3") ∧
    (specFirstFailure (.int 0) (parseTags "required") = some "is required" ∧
      validateField "Age" (.int 0) (parseTags "required") = .ok ()) ∧
    (Rule.minLen.specFailure (.str "ab") (parseTags "minLen=3,email")
        = some "length must be >= 3" ∧
      Rule.email.specFailure (.str "ab") (parseTags "minLen=3,email")
        = some "must be a valid email" ∧
      validateField "Email" (.str "ab") (parseTags "minLen=3,email")
        = .error "length must be >= 3") := by
  decide

/-! ## Length bounds (C6, C7) -/

theorem utf8Size_ascii (c : Char) (h : c.toNat < 128) : c.utf8Size = 1 := by
  have h1 : c.val ≤ 127 := by
    show c.val.toNat ≤ 127
    have : c.val.toNat = c.toNat := rfl
    omega
  simp [Char.utf8Size, h1]

theorem utf8ByteSize_go_ascii (cs : List Char) (h : ∀ c ∈ cs, c.toNat < 128) :
    String.utf8ByteSize.go cs = cs.length := by
  induction cs with
  | nil => rfl
  | cons c cs ih =>
    simp only [String.utf8ByteSize.go, List.length_cons]
    rw [ih (fun x hx => h x (by simp [hx])), utf8Size_ascii c (h c (by simp))]

/-- For an ASCII text the number of bytes is the number of characters. -/
theorem len_ascii (s : String) (h : ∀ c ∈ s.data, c.toNat < 128) :
    len s = (s.length : Int) := by
  cases s with
  | mk cs =>
    simp only [len, String.utf8ByteSize, String.length]
    rw [utf8ByteSize_go_ascii cs h]

theorem parseTags_one_valued (k v : String) (hk : '=' ∉ k.data ∧ ',' ∉ k.data)
    (hv : ',' ∉ v.data) :
    parseTags (k ++ "=" ++ v) = TagMap.empty.set k v := by
  have hd : (k ++ "=" ++ v).data = k.data ++ '=' :: v.data := by simp
  have h1 : ',' ∉ k.data ++ '=' :: v.data := by
    simp only [List.mem_append, List.mem_cons, not_or]
    exact ⟨hk.2, by decide, hv⟩
  have hs : strings.Split (k ++ "=" ++ v) ',' = [k ++ "=" ++ v] := by
    simp only [strings.Split, hd, splitChars_of_not_mem _ _ h1, List.map_cons, List.map_nil]
    congr 1
    apply String.ext; simp
  rw [parseTags_eq_foldl, hs]
  simp only [List.foldl_cons, List.foldl_nil, tokenName_valued _ _ hk.1,
    tokenArg_valued _ _ hk.1]

theorem validateField_minLen_maxLen_eq (name s la lb : String) (A B : Int)
    (ha : decimalValue? la = some A) (hb : decimalValue? lb = some B)
    (hA : -(2 ^ 63) ≤ A ∧ A < 2 ^ 63) (hB : -(2 ^ 63) ≤ B ∧ B < 2 ^ 63) :
    validateField name (.str s) (parseTags ("minLen=" ++ la ++ "," ++ "maxLen=" ++ lb)) =
      if len s < A then .error ("length must be >= " ++ la)
      else if len s > B then .error ("length must be <= " ++ lb)
      else .ok () := by
  have hp := parseTags_two_valued "minLen" la "maxLen" lb (by decide)
    (decimal_no_separator la A ha).1 (by decide) (decimal_no_separator lb B hb).1
  have e : "minLen=" ++ la ++ "," ++ "maxLen=" ++ lb
      = "minLen" ++ "=" ++ la ++ "," ++ "maxLen" ++ "=" ++ lb := by
    apply String.ext; simp
  rw [e, hp, validateField_flat]
  have pa := parseInt_of_decimal la A ha hA.1 hA.2
  have pb := parseInt_of_decimal lb B hb hB.1 hB.2
  simp only [firstBlockError, Rule.priority, List.findSome?, Rule.block, TagMap.set, TagMap.index,
    TagMap.empty]
  simp [pa, pb, Value.Kind, Value.String, toResult]
  split_ifs <;> simp_all [toResult]

/-- C6: a field holding an ASCII text `s`, annotated `minLen=A,maxLen=B` with
decimal literals `la`, `lb` of integers `A`, `B` of Go's `int` range: a length
below `A` gives the single violation "length must be >= A", also when the
length exceeds `B` at the same time; a length of at least `A` and above `B`
gives the single violation "length must be <= B"; a length within `[A, B]`
gives none. -/
theorem validateField_minLen_maxLen (name s la lb : String) (A B : Int)
    (hs : ∀ c ∈ s.data, c.toNat < 128)
    (ha : decimalValue? la = some A) (hb : decimalValue? lb = some B)
    (hA : -(2 ^ 63) ≤ A ∧ A < 2 ^ 63) (hB : -(2 ^ 63) ≤ B ∧ B < 2 ^ 63) :
    ((s.length : Int) < A →
      validateField name (.str s) (parseTags ("minLen=" ++ la ++ ",maxLen=" ++ lb))
        = .error ("length must be >= " ++ la) ∧
      collectErrors [{ Name := name, Tag := "minLen=" ++ la ++ ",maxLen=" ++ lb, Value := .str s }]
        = [{ Field := name, Err := "length must be >= " ++ la }]) ∧
    ((s.length : Int) < A ∧ (s.length : Int) > B →
      B < A ∧
      collectErrors [{ Name := name, Tag := "minLen=" ++ la ++ ",maxLen=" ++ lb, Value := .str s }]
        = [{ Field := name, Err := "length must be >= " ++ la }]) ∧
    (A ≤ (s.length : Int) → (s.length : Int) > B →
      validateField name (.str s) (parseTags ("minLen=" ++ la ++ ",maxLen=" ++ lb))
        = .error ("length must be <= " ++ lb) ∧
      collectErrors [{ Name := name, Tag := "minLen=" ++ la ++ ",maxLen=" ++ lb, Value := .str s }]
        = [{ Field := name, Err := "length must be <= " ++ lb }]) ∧
    (A ≤ (s.length : Int) ∧ (s.length : Int) ≤ B →
      validateField name (.str s) (parseTags ("minLen=" ++ la ++ ",maxLen=" ++ lb)) = .ok () ∧
      collectErrors [{ Name := name, Tag := "minLen=" ++ la ++ ",maxLen=" ++ lb, Value := .str s }]
        = []) := by
  have e : "minLen=" ++ la ++ ",maxLen=" ++ lb = "minLen=" ++ la ++ "," ++ "maxLen=" ++ lb := by
    apply String.ext; simp
  have hne : ¬ ("minLen=" ++ la ++ "," ++ "maxLen=" ++ lb = "") := by
    intro h
    have := congrArg String.data h
    simp at this
  have key := validateField_minLen_maxLen_eq name s la lb A B ha hb hA hB
  rw [len_ascii s hs] at key
  rw [e]
  simp only [collectErrors_singleton, fieldViolation, hne, if_false, key]
  refine ⟨fun h => ?_, fun h => ?_, fun h1 h2 => ?_, fun h => ?_⟩
  · simp [h]
  · refine ⟨by omega, ?_⟩
    simp [h.1]
  · have h3 : ¬ (s.length : Int) < A := by omega
    simp [h3, h2]
  · have h1 : ¬ (s.length : Int) < A := by omega
    have h2 : ¬ (s.length : Int) > B := by omega
    simp [h1, h2]

/-- C6 at the misconfigured annotation `minLen=5,maxLen=2` with the text "abc",
which violates both bounds. -/
theorem validateField_minLen_maxLen_witness :
    (2 : Int) < 5 ∧
      collectErrors
          [{ Name := "Rank", Tag := "minLen=" ++ "5" ++ ",maxLen=" ++ "2", Value := .str "abc" }]
        = [{ Field := "Rank", Err := "length must be >= " ++ "5" }] :=
  (validateField_minLen_maxLen "Rank" "abc" "5" "2" 5 2 (by decide) (by decide) (by decide)
    (by decide) (by decide)).2.1 (by decide)

theorem validateField_minLen_eq (name s l : String) (n : Int)
    (hl : decimalValue? l = some n) (hn : -(2 ^ 63) ≤ n ∧ n < 2 ^ 63) :
    validateField name (.str s) (parseTags ("minLen=" ++ l)) =
      if len s < n then .error ("length must be >= " ++ l) else .ok () := by
  have hp := parseTags_one_valued "minLen" l (by decide) (decimal_no_separator l n hl).1
  have e : "minLen=" ++ l = "minLen" ++ "=" ++ l := by
    apply String.ext; simp
  rw [e, hp, validateField_flat]
  have pn := parseInt_of_decimal l n hl hn.1 hn.2
  simp only [firstBlockError, Rule.priority, List.findSome?, Rule.block, TagMap.set, TagMap.index,
    TagMap.empty]
  simp [pn, Value.Kind, Value.String, toResult]
  split_ifs <;> simp_all [toResult]

theorem validateField_maxLen_eq (name s l : String) (n : Int)
    (hl : decimalValue? l = some n) (hn : -(2 ^ 63) ≤ n ∧ n < 2 ^ 63) :
    validateField name (.str s) (parseTags ("maxLen=" ++ l)) =
      if len s > n then .error ("length must be <= " ++ l) else .ok () := by
  have hp := parseTags_one_valued "maxLen" l (by decide) (decimal_no_separator l n hl).1
  have e : "maxLen=" ++ l = "maxLen" ++ "=" ++ l := by
    apply String.ext; simp
  rw [e, hp, validateField_flat]
  have pn := parseInt_of_decimal l n hl hn.1 hn.2
  simp only [firstBlockError, Rule.priority, List.findSome?, Rule.block, TagMap.set, TagMap.index,
    TagMap.empty]
  simp [pn, Value.Kind, Value.String, toResult]
  split_ifs <;> simp_all [toResult]

/-- C7 as stated fails on the one-character, two-byte text "é": its character
length 1 is below 2, yet `minLen=2` accepts it; its character length 1 does not
exceed 1, yet `maxLen=1` rejects it. -/
theorem minLen_maxLen_not_character_length :
    ("é".length = 1 ∧ "é".utf8ByteSize = 2) ∧
    ¬ (validateField "Name" (.str "é") (parseTags "minLen=2") ≠ .ok () ↔
        ("é".length : Int) < 2) ∧
    ¬ (validateField "Name" (.str "é") (parseTags "maxLen=1") ≠ .ok () ↔
        ("é".length : Int) > 1) := by
  decide

/-- C7 amended: with the argument a decimal literal `l` of an integer `n` of Go's
`int` range, the `minLen` rule fails exactly when the number of bytes of the
UTF-8 encoding of the text is below `n`, and the `maxLen` rule fails exactly when
it is above `n`; for an ASCII text that number is the number of characters. -/
theorem minLen_maxLen_byte_length (name s l : String) (n : Int)
    (hl : decimalValue? l = some n) (hn : -(2 ^ 63) ≤ n ∧ n < 2 ^ 63) :
    (validateField name (.str s) (parseTags ("minLen=" ++ l)) ≠ .ok () ↔
      (s.utf8ByteSize : Int) < n) ∧
    (validateField name (.str s) (parseTags ("minLen=" ++ l))
        = .error ("length must be >= " ++ l) ↔ (s.utf8ByteSize : Int) < n) ∧
    (validateField name (.str s) (parseTags ("maxLen=" ++ l)) ≠ .ok () ↔
      (s.utf8ByteSize : Int) > n) ∧
    (validateField name (.str s) (parseTags ("maxLen=" ++ l))
        = .error ("length must be <= " ++ l) ↔ (s.utf8ByteSize : Int) > n) ∧
    ((∀ c ∈ s.data, c.toNat < 128) → s.utf8ByteSize = s.length) := by
  rw [validateField_minLen_eq name s l n hl hn, validateField_maxLen_eq name s l n hl hn]
  simp only [len]
  refine ⟨?_, ?_, ?_, ?_, ?_⟩
  · split_ifs with h <;> simp [h]
  · split_ifs with h <;> simp [h]
  · split_ifs with h <;> simp [h]
  · split_ifs with h <;> simp [h]
  · intro h
    have := len_ascii s h
    simp only [len] at this
    exact_mod_cast this

/-- C7 amended, at the text "é" and the bound 2. -/
theorem minLen_maxLen_byte_length_witness :
    (validateField "Name" (.str "é") (parseTags ("minLen=" ++ "2")) ≠ .ok () ↔
      (("é".utf8ByteSize : Nat) : Int) < 2) :=
  (minLen_maxLen_byte_length "Name" "é" "2" 2 (by decide) (by decide)).1

/-! ## The rule map of an annotation (C8, C9) -/

theorem intercalate_go_data (acc sep : String) (l : List String) :
    (String.intercalate.go acc sep l).data =
      acc.data ++ (l.map fun t => sep.data ++ t.data).flatten := by
  induction l generalizing acc with
  | nil => simp [String.intercalate.go]
  | cons a l ih => simp [String.intercalate.go, ih]

theorem intercalate_data (sep : Char) (l : List (List Char)) (hl : l ≠ []) :
    (String.intercalate (String.singleton sep) (l.map String.mk)).data
      = [sep].intercalate l := by
  cases l with
  | nil => exact absurd rfl hl
  | cons a l =>
    simp only [List.map_cons, String.intercalate, intercalate_go_data, List.intercalate]
    have hsep : (String.singleton sep).data = [sep] := rfl
    rw [hsep]
    clear hl
    induction l generalizing a with
    | nil => simp
    | cons b l ih =>
      have := ih b
      simp only [List.map_cons, List.map_map, List.flatten_cons, List.intersperse,
        List.singleton_append, List.cons_append, List.nil_append] at this ⊢
      simp only [List.append_cancel_left_eq, List.cons.injEq, true_and]
      exact this

theorem Split_intercalate (tag : String) : ",".intercalate (strings.Split tag ',') = tag := by
  apply String.ext
  have h : "," = String.singleton ',' := rfl
  rw [h, strings.Split, intercalate_data _ _ (splitChars_ne_nil _ _), intercalate_splitChars]

theorem Split_no_comma (tag t : String) (h : t ∈ strings.Split tag ',') : ',' ∉ t.data := by
  simp only [strings.Split, List.mem_map] at h
  obtain ⟨cs, hcs, rfl⟩ := h
  exact not_mem_of_mem_splitChars ',' tag.data cs hcs

theorem foldl_set_of_not_mem (ts : List String) (m : TagMap) (k : String)
    (h : ∀ u ∈ ts, tokenName u ≠ k) :
    (ts.foldl (fun m t => m.set (tokenName t) (tokenArg t)) m) k = m k := by
  induction ts generalizing m with
  | nil => rfl
  | cons t ts ih =>
    rw [List.foldl_cons, ih _ (fun u hu => h u (by simp [hu]))]
    have : k ≠ tokenName t := fun e => h t (by simp) e.symm
    simp [TagMap.set, this]

theorem foldl_set_last (pre post : List String) (t : String) (m : TagMap)
    (h : ∀ u ∈ post, tokenName u ≠ tokenName t) :
    ((pre ++ t :: post).foldl (fun m t => m.set (tokenName t) (tokenArg t)) m) (tokenName t)
      = some (tokenArg t) := by
  rw [List.foldl_append, List.foldl_cons, foldl_set_of_not_mem post _ _ h]
  simp [TagMap.set]

theorem foldl_set_some (ts : List String) (m : TagMap) (k v : String)
    (h : (ts.foldl (fun m t => m.set (tokenName t) (tokenArg t)) m) k = some v) :
    m k = some v ∨ ∃ t ∈ ts, tokenName t = k ∧ tokenArg t = v := by
  induction ts generalizing m with
  | nil => exact Or.inl h
  | cons t ts ih =>
    rw [List.foldl_cons] at h
    rcases ih _ h with h1 | ⟨u, hu, hn, ha⟩
    · by_cases hk : k = tokenName t
      · right
        refine ⟨t, by simp, hk.symm, ?_⟩
        simp only [TagMap.set, hk, if_true, Option.some.injEq] at h1
        exact h1
      · left
        simpa [TagMap.set, hk] using h1
    · exact Or.inr ⟨u, by simp [hu], hn, ha⟩

theorem foldl_set_mono (ts : List String) (m : TagMap) (k : String) (h : (m k).isSome) :
    ((ts.foldl (fun m t => m.set (tokenName t) (tokenArg t)) m) k).isSome := by
  induction ts generalizing m with
  | nil => exact h
  | cons t ts ih =>
    rw [List.foldl_cons]
    apply ih
    simp only [TagMap.set]
    split_ifs
    · rfl
    · exact h

theorem foldl_set_mem (ts : List String) (m : TagMap) (t : String) (h : t ∈ ts) :
    ((ts.foldl (fun m t => m.set (tokenName t) (tokenArg t)) m) (tokenName t)).isSome := by
  induction ts generalizing m with
  | nil => simp at h
  | cons u ts ih =>
    rw [List.foldl_cons]
    simp only [List.mem_cons] at h
    rcases h with h | h
    · subst h
      apply foldl_set_mono
      simp [TagMap.set]
    · exact ih _ h

/-- C8: `parseTags` splits the annotation at every `,` (the tokens joined by
`,` give the annotation back and hold no `,`), and gives each token one entry:
a token without `=` is a name with the empty argument, a token `k=v` with no
`=` in `k` is the name `k` with the argument `v`, whatever `v` holds; every
token's name is a key of the result and every entry of the result is the
entry of a token; `a=b=c` gives `a -> "b=c"`. -/
theorem parseTags_entries (tag : String) :
    (",".intercalate (strings.Split tag ',') = tag ∧
      ∀ t ∈ strings.Split tag ',', ',' ∉ t.data) ∧
    parseTags tag =
      (strings.Split tag ',').foldl (fun m t => m.set (tokenName t) (tokenArg t))
        TagMap.empty ∧
    (∀ t : String, '=' ∉ t.data → tokenName t = t ∧ tokenArg t = "") ∧
    (∀ k v : String, '=' ∉ k.data →
      tokenName (k ++ "=" ++ v) = k ∧ tokenArg (k ++ "=" ++ v) = v) ∧
    (∀ t ∈ strings.Split tag ',', (parseTags tag (tokenName t)).isSome) ∧
    (∀ k v : String, parseTags tag k = some v →
      ∃ t ∈ strings.Split tag ',', tokenName t = k ∧ tokenArg t = v) ∧
    (parseTags "a=b=c" "a" = some "b=c" ∧ ∀ k : String, k ≠ "a" → parseTags "a=b=c" k = none) := by
  refine ⟨⟨Split_intercalate tag, fun t ht => Split_no_comma tag t ht⟩, parseTags_eq_foldl tag,
    fun t ht => ⟨tokenName_flag t ht, tokenArg_flag t ht⟩,
    fun k v hk => ⟨tokenName_valued k v hk, tokenArg_valued k v hk⟩, ?_, ?_, ?_, ?_⟩
  · intro t ht
    rw [parseTags_eq_foldl]
    exact foldl_set_mem _ _ t ht
  · intro k v h
    rw [parseTags_eq_foldl] at h
    rcases foldl_set_some _ _ k v h with h1 | h1
    · simp [TagMap.empty] at h1
    · exact h1
  · decide
  · intro k hk
    have hp := parseTags_one_valued "a" "b=c" (by decide) (by decide)
    have e : ("a=b=c" : String) = "a" ++ "=" ++ "b=c" := by decide
    rw [e, hp]
    simp [TagMap.set, TagMap.empty, hk]

/-- C9: when a rule name occurs in several tokens, `parseTags` maps it to the
argument of its last occurrence: for a token `t` of the annotation that no later
token shares its name with, the entry under the name of `t` carries the
argument of `t`, the empty argument when `t` is a bare flag. -/
theorem parseTags_last_wins (tag t : String) (pre post : List String)
    (h : strings.Split tag ',' = pre ++ t :: post)
    (hlast : ∀ u ∈ post, tokenName u ≠ tokenName t) :
    parseTags tag (tokenName t) = some (tokenArg t) ∧
    ('=' ∉ t.data → parseTags tag t = some "") := by
  have key : parseTags tag (tokenName t) = some (tokenArg t) := by
    rw [parseTags_eq_foldl, h]
    exact foldl_set_last pre post t _ hlast
  refine ⟨key, fun ht => ?_⟩
  rw [tokenName_flag t ht, tokenArg_flag t ht] at key
  exact key

/-- C9 at `min=1,max=9,min`: the bare flag `min`, coming last, resets the
argument of `min` to the empty text. -/
theorem parseTags_last_wins_witness :
    parseTags "min=1,max=9,min" (tokenName "min") = some (tokenArg "min") ∧
    ('=' ∉ "min".data → parseTags "min=1,max=9,min" "min" = some "") :=
  parseTags_last_wins "min=1,max=9,min" "min" ["min=1", "max=9"] [] (by decide)
    (by simp)

/-! ## The email pattern (C10) -/

theorem matchChars_empty (x : List Char) : Regex.empty.matchChars x = false := by
  induction x with
  | nil => rfl
  | cons c cs ih => simpa [Regex.matchChars, Regex.deriv] using ih

theorem matchChars_eps (x : List Char) : Regex.eps.matchChars x = true ↔ x = [] := by
  cases x with
  | nil => simp [Regex.matchChars, Regex.nullable]
  | cons c cs => simp [Regex.matchChars, Regex.deriv, matchChars_empty]

theorem matchChars_cls (rs : List (Char × Char)) (x : List Char) :
    (Regex.cls rs).matchChars x = true ↔ ∃ c, x = [c] ∧ inClass rs c = true := by
  cases x with
  | nil => simp [Regex.matchChars, Regex.nullable]
  | cons c cs =>
    simp only [Regex.matchChars, Regex.deriv]
    by_cases h : inClass rs c = true
    · simp only [h, if_true, matchChars_eps]
      constructor
      · rintro rfl
        exact ⟨c, rfl, h⟩
      · rintro ⟨d, hd, _⟩
        injection hd with h1 h2
    · simp only [h, Bool.false_eq_true, if_false, matchChars_empty, false_iff]
      rintro ⟨d, hd, hc⟩
      injection hd with h1 h2
      subst h1
      exact h hc

theorem matchChars_alt (r s : Regex) (x : List Char) :
    (Regex.alt r s).matchChars x = true ↔ r.matchChars x = true ∨ s.matchChars x = true := by
  induction x generalizing r s with
  | nil => simp [Regex.matchChars, Regex.nullable]
  | cons c cs ih => simp only [Regex.matchChars, Regex.deriv, ih]

theorem matchChars_seq (r s : Regex) (x : List Char) :
    (Regex.seq r s).matchChars x = true ↔
      ∃ a b, x = a ++ b ∧ r.matchChars a = true ∧ s.matchChars b = true := by
  induction x generalizing r s with
  | nil =>
    simp only [Regex.matchChars, Regex.nullable, Bool.and_eq_true]
    constructor
    · rintro ⟨h1, h2⟩
      exact ⟨[], [], rfl, h1, h2⟩
    · rintro ⟨a, b, hab, h1, h2⟩
      obtain ⟨ha, hb⟩ := List.append_eq_nil.mp hab.symm
      subst ha hb
      exact ⟨h1, h2⟩
  | cons c cs ih =>
    simp only [Regex.matchChars, Regex.deriv]
    by_cases hn : r.nullable = true
    · simp only [hn, if_true, matchChars_alt, ih]
      constructor
      · rintro (⟨a, b, hab, h1, h2⟩ | h)
        · exact ⟨c :: a, b, by simp [hab], h1, h2⟩
        · exact ⟨[], c :: cs, rfl, hn, h⟩
      · rintro ⟨a, b, hab, h1, h2⟩
        cases a with
        | nil =>
          right
          simp only [List.nil_append] at hab
          subst hab
          exact h2
        | cons d a =>
          left
          simp only [List.cons_append, List.cons.injEq] at hab
          obtain ⟨rfl, rfl⟩ := hab
          exact ⟨a, b, rfl, h1, h2⟩
    · simp only [hn, Bool.false_eq_true, if_false, ih]
      constructor
      · rintro ⟨a, b, hab, h1, h2⟩
        exact ⟨c :: a, b, by simp [hab], h1, h2⟩
      · rintro ⟨a, b, hab, h1, h2⟩
        cases a with
        | nil => exact absurd h1 hn
        | cons d a =>
          simp only [List.cons_append, List.cons.injEq] at hab
          obtain ⟨rfl, rfl⟩ := hab
          exact ⟨a, b, rfl, h1, h2⟩

theorem matchChars_star_cls (rs : List (Char × Char)) (x : List Char) :
    (Regex.star (.cls rs)).matchChars x = true ↔ ∀ c ∈ x, inClass rs c = true := by
  induction x with
  | nil => simp [Regex.matchChars, Regex.nullable]
  | cons c cs ih =>
    simp only [Regex.matchChars, Regex.deriv, List.mem_cons, forall_eq_or_imp]
    by_cases h : inClass rs c = true
    · simp only [h, if_true, true_and, matchChars_seq, matchChars_eps]
      rw [← ih]
      constructor
      · rintro ⟨a, b, hab, rfl, h2⟩
        simpa [hab] using h2
      · intro h2
        exact ⟨[], cs, rfl, rfl, h2⟩
    · simp only [h, Bool.false_eq_true, if_false, false_and, iff_false, matchChars_seq,
        matchChars_empty]
      simp

theorem matchChars_atLeast_cls (n : Nat) (rs : List (Char × Char)) (x : List Char) :
    (Regex.atLeast n (.cls rs)).matchChars x = true ↔
      n ≤ x.length ∧ ∀ c ∈ x, inClass rs c = true := by
  induction n generalizing x with
  | zero => simp [Regex.atLeast, matchChars_star_cls]
  | succ n ih =>
    simp only [Regex.atLeast, matchChars_seq, matchChars_cls, ih]
    constructor
    · rintro ⟨a, b, rfl, ⟨c, rfl, hc⟩, hb, hall⟩
      refine ⟨by simp [hb], ?_⟩
      intro d hd
      simp only [List.singleton_append, List.mem_cons] at hd
      rcases hd with rfl | hd
      · exact hc
      · exact hall d hd
    · rintro ⟨hlen, hall⟩
      cases x with
      | nil => simp at hlen
      | cons c cs =>
        refine ⟨[c], cs, rfl, ⟨c, rfl, hall c (by simp)⟩, ?_, fun d hd => hall d (by simp [hd])⟩
        simpa using hlen

theorem matchChars_plus_cls (rs : List (Char × Char)) (x : List Char) :
    (Regex.plus (.cls rs)).matchChars x = true ↔ x ≠ [] ∧ ∀ c ∈ x, inClass rs c = true := by
  have h := matchChars_atLeast_cls 1 rs x
  have e : Regex.atLeast 1 (.cls rs) = Regex.plus (.cls rs) := rfl
  rw [e] at h
  rw [h]
  cases x <;> simp

theorem matchChars_chr (c : Char) (x : List Char) :
    (Regex.chr c).matchChars x = true ↔ x = [c] := by
  simp only [Regex.chr, matchChars_cls, inClass, List.any_cons, List.any_nil, Bool.or_false,
    Bool.and_eq_true, decide_eq_true_eq]
  constructor
  · rintro ⟨d, rfl, h1, h2⟩
    rw [le_antisymm h2 h1]
  · rintro rfl
    exact ⟨c, rfl, le_refl _, le_refl _⟩

theorem char_le_iff (a b : Char) : a ≤ b ↔ a.toNat ≤ b.toNat := Iff.rfl

theorem char_eq_iff (a b : Char) : a = b ↔ a.toNat = b.toNat := by
  constructor
  · rintro rfl; rfl
  · intro h
    apply Char.ext
    apply UInt32.ext
    exact h

theorem uint32_le_iff (a b : UInt32) : a ≤ b ↔ a.toNat ≤ b.toNat := Iff.rfl

theorem inClass_letterClass (c : Char) : inClass letterClass c = c.isAlpha := by
  rw [Bool.eq_iff_iff]
  simp only [inClass, letterClass, List.any_cons, List.any_nil, Bool.or_false, Bool.or_eq_true,
    Bool.and_eq_true, decide_eq_true_eq, Char.isAlpha, Char.isUpper, Char.isLower, ge_iff_le,
    char_le_iff, uint32_le_iff]
  have e : c.val.toNat = c.toNat := rfl
  simp only [e]
  have h1 : 'a'.toNat = 97 := rfl
  have h2 : 'z'.toNat = 122 := rfl
  have h3 : 'A'.toNat = 65 := rfl
  have h4 : 'Z'.toNat = 90 := rfl
  have h5 : (97 : UInt32).toNat = 97 := rfl
  have h6 : (122 : UInt32).toNat = 122 := rfl
  have h7 : (65 : UInt32).toNat = 65 := rfl
  have h8 : (90 : UInt32).toNat = 90 := rfl
  rw [h1, h2, h3, h4, h5, h6, h7, h8]
  omega

theorem inClass_domainClass (c : Char) : inClass domainClass c = isDomainChar c := by
  rw [Bool.eq_iff_iff]
  simp only [inClass, domainClass, isDomainChar, List.any_cons, List.any_nil, Bool.or_false,
    Bool.or_eq_true, Bool.and_eq_true, decide_eq_true_eq, Char.isAlpha, Char.isUpper,
    Char.isLower, Char.isDigit, ge_iff_le, beq_iff_eq, char_le_iff, char_eq_iff,
    uint32_le_iff]
  have e : c.val.toNat = c.toNat := rfl
  simp only [e]
  have h1 : 'a'.toNat = 97 := rfl
  have h2 : 'z'.toNat = 122 := rfl
  have h3 : 'A'.toNat = 65 := rfl
  have h4 : 'Z'.toNat = 90 := rfl
  have h5 : (97 : UInt32).toNat = 97 := rfl
  have h6 : (122 : UInt32).toNat = 122 := rfl
  have h7 : (65 : UInt32).toNat = 65 := rfl
  have h8 : (90 : UInt32).toNat = 90 := rfl
  have h9 : '0'.toNat = 48 := rfl
  have h10 : '9'.toNat = 57 := rfl
  have h11 : (48 : UInt32).toNat = 48 := rfl
  have h12 : (57 : UInt32).toNat = 57 := rfl
  have h13 : '.'.toNat = 46 := rfl
  have h14 : '-'.toNat = 45 := rfl
  rw [h1, h2, h3, h4, h5, h6, h7, h8, h9, h10, h11, h12, h13, h14]
  omega

theorem inClass_localClass (c : Char) : inClass localClass c = isLocalChar c := by
  rw [Bool.eq_iff_iff]
  simp only [inClass, localClass, isLocalChar, List.any_cons, List.any_nil, Bool.or_false,
    Bool.or_eq_true, Bool.and_eq_true, decide_eq_true_eq, Char.isAlpha, Char.isUpper,
    Char.isLower, Char.isDigit, ge_iff_le, beq_iff_eq, char_le_iff, char_eq_iff,
    uint32_le_iff]
  have e : c.val.toNat = c.toNat := rfl
  simp only [e]
  have h1 : 'a'.toNat = 97 := rfl
  have h2 : 'z'.toNat = 122 := rfl
  have h3 : 'A'.toNat = 65 := rfl
  have h4 : 'Z'.toNat = 90 := rfl
  have h5 : (97 : UInt32).toNat = 97 := rfl
  have h6 : (122 : UInt32).toNat = 122 := rfl
  have h7 : (65 : UInt32).toNat = 65 := rfl
  have h8 : (90 : UInt32).toNat = 90 := rfl
  have h9 : '0'.toNat = 48 := rfl
  have h10 : '9'.toNat = 57 := rfl
  have h11 : (48 : UInt32).toNat = 48 := rfl
  have h12 : (57 : UInt32).toNat = 57 := rfl
  have h13 : '.'.toNat = 46 := rfl
  have h14 : '-'.toNat = 45 := rfl
  have h15 : '_'.toNat = 95 := rfl
  have h16 : '%'.toNat = 37 := rfl
  have h17 : '+'.toNat = 43 := rfl
  rw [h1, h2, h3, h4, h5, h6, h7, h8, h9, h10, h11, h12, h13, h14, h15, h16, h17]
  omega

/-- The texts that the email pattern matches, as lists of characters. -/
theorem matchChars_emailRegex (x : List Char) :
    emailRegex.matchChars x = true ↔
      ∃ l d t : List Char, x = l ++ '@' :: (d ++ '.' :: t) ∧
        (l ≠ [] ∧ ∀ c ∈ l, isLocalChar c = true) ∧
        (d ≠ [] ∧ ∀ c ∈ d, isDomainChar c = true) ∧
        (2 ≤ t.length ∧ ∀ c ∈ t, c.isAlpha = true) := by
  simp only [emailRegex, matchChars_seq, matchChars_plus_cls, matchChars_chr,
    matchChars_atLeast_cls, inClass_localClass, inClass_domainClass, inClass_letterClass]
  constructor
  · rintro ⟨l, _, rfl, hl, _, _, rfl, rfl, d, _, rfl, hd, _, t, rfl, rfl, ht⟩
    exact ⟨l, d, t, by simp, hl, hd, ht⟩
  · rintro ⟨l, d, t, rfl, hl, hd, ht⟩
    exact ⟨l, _, rfl, hl, ['@'], _, rfl, rfl, d, _, rfl, hd, ['.'], t, rfl, rfl, ht⟩

/-- C10: `isValidEmail` accepts exactly the texts `local@domain.tld` with a
non-empty `local` of ASCII letters, digits and `.`, `_`, `%`, `+`, `-`, a
non-empty `domain` of ASCII letters, digits and `.`, `-`, and a `tld` of two
or more ASCII letters; it accepts "a@b.co" and rejects "a@b", "a.b" and
"a@b..c". -/
theorem isValidEmail_iff (s : String) :
    (isValidEmail s = true ↔
      ∃ l d t : String, s = l ++ "@" ++ d ++ "." ++ t ∧
        (l ≠ "" ∧ ∀ c ∈ l.data, isLocalChar c = true) ∧
        (d ≠ "" ∧ ∀ c ∈ d.data, isDomainChar c = true) ∧
        (2 ≤ t.length ∧ ∀ c ∈ t.data, c.isAlpha = true)) ∧
    (isValidEmail "a@b.co" = true ∧ isValidEmail "a@b" = false ∧ isValidEmail "a.b" = false ∧
      isValidEmail "a@b..c" = false) := by
  refine ⟨?_, by decide⟩
  simp only [isValidEmail, Regex.MatchString, matchChars_emailRegex]
  constructor
  · rintro ⟨l, d, t, hx, ⟨hl, hl2⟩, ⟨hd, hd2⟩, ht⟩
    refine ⟨⟨l⟩, ⟨d⟩, ⟨t⟩, ?_, ⟨?_, hl2⟩, ⟨?_, hd2⟩, ht⟩
    · apply String.ext
      simp [hx]
    · intro h
      exact hl (congrArg String.data h)
    · intro h
      exact hd (congrArg String.data h)
  · rintro ⟨l, d, t, rfl, ⟨hl, hl2⟩, ⟨hd, hd2⟩, ht⟩
    refine ⟨l.data, d.data, t.data, by simp, ⟨?_, hl2⟩, ⟨?_, hd2⟩, ht⟩
    · intro h
      exact hl (String.ext h)
    · intro h
      exact hd (String.ext h)

/-! ## Unparsable bounds (C11) -/

theorem ParseInt_invalid (s : List Char) (h : (ParseInt s).2 = some .invalid) :
    (ParseInt s).1 = 0 := by
  unfold ParseInt at h ⊢
  by_cases hs : s = []
  · simp [hs]
  · simp only [hs, if_false] at h ⊢
    generalize ParseUint (if s.head? = some '+' ∨ s.head? = some '-' then s.tail else s) = r
      at h ⊢
    obtain ⟨un, err⟩ := r
    simp only at h ⊢
    split_ifs at h ⊢ <;> simp_all

theorem Atoi_invalid (s : String) (h : (Atoi s).2 = some .invalid) : (Atoi s).1 = 0 := by
  unfold Atoi at h ⊢
  by_cases hfast : 0 < s.utf8ByteSize ∧ s.utf8ByteSize < 19
  · simp only [hfast, and_self, if_true] at h ⊢
    split_ifs at h ⊢
    · rfl
    · cases hl : atoiFastLoop s.data.tail 0 <;> simp_all
    · cases hl : atoiFastLoop s.data.tail 0 <;> simp_all
    · rfl
    · cases hl : atoiFastLoop s.data 0 <;> simp_all
    · cases hl : atoiFastLoop s.data 0 <;> simp_all
  · simp only [hfast, if_false] at h ⊢
    exact ParseInt_invalid s.data h

theorem validateField_min_only (name : String) (v : Int) (a : String) :
    validateField name (.int v) (TagMap.empty.set "min" a) =
      if v < parseInt a then .error ("must be >= " ++ a) else .ok () := by
  rw [validateField_flat]
  simp only [firstBlockError, Rule.priority, List.findSome?, Rule.block, TagMap.set, TagMap.index,
    TagMap.empty]
  simp [Value.Kind, Value.Int, toResult]
  split_ifs <;> simp_all [toResult]

theorem validateField_max_only (name : String) (v : Int) (a : String) :
    validateField name (.int v) (TagMap.empty.set "max" a) =
      if v > parseInt a then .error ("must be <= " ++ a) else .ok () := by
  rw [validateField_flat]
  simp only [firstBlockError, Rule.priority, List.findSome?, Rule.block, TagMap.set, TagMap.index,
    TagMap.empty]
  simp [Value.Kind, Value.Int, toResult]
  split_ifs <;> simp_all [toResult]

/-- C11 as stated fails on a numeral outside the `int` range: `strconv.Atoi`
reports an error on "9223372036854775808" and on "-9223372036854775809", yet the
bound used is the nearest `int`, not 0: with the value 5 the rule
`max=9223372036854775808` does not fail although 5 > 0, and with the value -5 the
rule `min=-9223372036854775809` does not fail although -5 < 0. -/
theorem unparsable_bound_not_always_zero :
    ((Atoi "9223372036854775808").2 = some .outOfRange ∧
      parseInt "9223372036854775808" = 9223372036854775807 ∧
      ¬ (validateField "Age" (.int 5) (parseTags "max=9223372036854775808") ≠ .ok () ↔
          (5 : Int) > 0)) ∧
    ((Atoi "-9223372036854775809").2 = some .outOfRange ∧
      parseInt "-9223372036854775809" = -9223372036854775808 ∧
      ¬ (validateField "Age" (.int (-5)) (parseTags "min=-9223372036854775809") ≠ .ok () ↔
          (-5 : Int) < 0)) := by
  decide

/-- C11 amended: when `strconv.Atoi` reports a syntax error on the argument `s`
(the empty text, a bare sign, non-numeric text), the bound is 0: the `min` rule
fails exactly when `v < 0` and the `max` rule exactly when `v > 0`, the reason
carrying `s` as written. -/
theorem unparsable_bound_is_zero (name : String) (v : Int) (s : String)
    (hs : (Atoi s).2 = some .invalid) :
    parseInt s = 0 ∧
    (validateField name (.int v) (TagMap.empty.set "min" s) ≠ .ok () ↔ v < 0) ∧
    (validateField name (.int v) (TagMap.empty.set "min" s) = .error ("must be >= " ++ s) ↔
      v < 0) ∧
    (validateField name (.int v) (TagMap.empty.set "max" s) ≠ .ok () ↔ v > 0) ∧
    (validateField name (.int v) (TagMap.empty.set "max" s) = .error ("must be <= " ++ s) ↔
      v > 0) := by
  have h0 : parseInt s = 0 := Atoi_invalid s hs
  rw [validateField_min_only, validateField_max_only, h0]
  refine ⟨rfl, ?_, ?_, ?_, ?_⟩ <;> (split_ifs with h <;> simp [h])

/-- C11 amended, at the argument "abc" and the value -1; the other unparsable
arguments named by the claim are syntax errors as well. -/
theorem unparsable_bound_is_zero_witness :
    ((Atoi "").2 = some .invalid ∧ (Atoi "-").2 = some .invalid ∧
      (Atoi "1.5").2 = some .invalid ∧ (Atoi "12a").2 = some .invalid) ∧
    (validateField "Age" (.int (-1)) (TagMap.empty.set "min" "abc") ≠ .ok () ↔ (-1 : Int) < 0) :=
  ⟨by decide, (unparsable_bound_is_zero "Age" (-1) "abc" (by decide)).2.1⟩

/-! ## Rules of another kind and unknown rules (C12, C13) -/

theorem block_minLen_int (n : Int) (m : TagMap) : Rule.minLen.block (.int n) m = none := by
  simp only [Rule.block, Value.Kind]
  cases m "minLen" <;> simp

theorem block_maxLen_int (n : Int) (m : TagMap) : Rule.maxLen.block (.int n) m = none := by
  simp only [Rule.block, Value.Kind]
  cases m "maxLen" <;> simp

theorem block_email_int (n : Int) (m : TagMap) : Rule.email.block (.int n) m = none := by
  simp [Rule.block, Value.Kind]

theorem block_min_str (s : String) (m : TagMap) : Rule.min.block (.str s) m = none := by
  simp only [Rule.block, Value.Kind]
  cases m "min" <;> simp

theorem block_max_str (s : String) (m : TagMap) : Rule.max.block (.str s) m = none := by
  simp only [Rule.block, Value.Kind]
  cases m "max" <;> simp

/-- The error of a block depends on the rule map through the six rule names
only. -/
theorem block_congr (r : Rule) (v : Value) (m m' : TagMap)
    (h : ∀ k ∈ ["required", "min", "max", "minLen", "maxLen", "email"], m k = m' k) :
    r.block v m = r.block v m' := by
  have h1 := h "required" (by simp)
  have h2 := h "min" (by simp)
  have h3 := h "max" (by simp)
  have h4 := h "minLen" (by simp)
  have h5 := h "maxLen" (by simp)
  have h6 := h "email" (by simp)
  cases r <;> simp only [Rule.block, TagMap.index, h1, h2, h3, h4, h5, h6]

theorem firstBlockError_congr (v : Value) (m m' : TagMap)
    (h : ∀ k ∈ ["required", "min", "max", "minLen", "maxLen", "email"], m k = m' k) :
    firstBlockError v m = firstBlockError v m' := by
  simp only [firstBlockError]
  congr 1
  funext r
  exact block_congr r v m m' h

theorem firstBlockError_int_congr (n : Int) (m m' : TagMap)
    (h : ∀ k ∈ ["required", "min", "max"], m k = m' k) :
    firstBlockError (.int n) m = firstBlockError (.int n) m' := by
  have h1 := h "required" (by simp)
  have h2 := h "min" (by simp)
  have h3 := h "max" (by simp)
  simp only [firstBlockError, Rule.priority, List.findSome?, block_minLen_int, block_maxLen_int,
    block_email_int]
  simp only [Rule.block, TagMap.index, h1, h2, h3]

theorem firstBlockError_str_congr (s : String) (m m' : TagMap)
    (h : ∀ k ∈ ["required", "minLen", "maxLen", "email"], m k = m' k) :
    firstBlockError (.str s) m = firstBlockError (.str s) m' := by
  have h1 := h "required" (by simp)
  have h2 := h "minLen" (by simp)
  have h3 := h "maxLen" (by simp)
  have h4 := h "email" (by simp)
  simp only [firstBlockError, Rule.priority, List.findSome?, block_min_str, block_max_str]
  simp only [Rule.block, TagMap.index, h1, h2, h3, h4]

theorem set_of_ne (m : TagMap) (k a k' : String) (h : k' ≠ k) : (m.set k a) k' = m k' := by
  simp [TagMap.set, h]

theorem erase_of_ne (m : TagMap) (k k' : String) (h : k' ≠ k) : (m.erase k) k' = m k' := by
  simp [TagMap.erase, h]

theorem ge_reason_ne_email (a : String) : "must be >= " ++ a ≠ "must be a valid email" := by
  intro h
  have := congrArg String.data h
  simp at this

theorem le_reason_ne_email (a : String) : "must be <= " ++ a ≠ "must be a valid email" := by
  intro h
  have := congrArg String.data h
  simp at this

theorem firstBlockError_int_ne_email (n : Int) (m : TagMap) :
    firstBlockError (.int n) m ≠ some "must be a valid email" := by
  simp only [firstBlockError, Rule.priority, List.findSome?, block_minLen_int, block_maxLen_int,
    block_email_int]
  simp only [Rule.block]
  have g := ge_reason_ne_email
  have l := le_reason_ne_email
  cases m "min" <;> cases m "max" <;> simp only [] <;> split_ifs <;> simp [g, l]

/-- C12: on an integer value the result of `validateField` is the same with the
keys `minLen`, `maxLen`, `email` added (with any argument) or removed, and is
never the email violation; on a text value it is the same with the keys `min`,
`max` added or removed. -/
theorem validateField_skips_other_kind (name : String) (n : Int) (s : String) (m : TagMap)
    (a : String) :
    (∀ k ∈ ["minLen", "maxLen", "email"],
      validateField name (.int n) (m.set k a) = validateField name (.int n) m ∧
      validateField name (.int n) (m.erase k) = validateField name (.int n) m) ∧
    validateField name (.int n) m ≠ .error "must be a valid email" ∧
    (∀ k ∈ ["min", "max"],
      validateField name (.str s) (m.set k a) = validateField name (.str s) m ∧
      validateField name (.str s) (m.erase k) = validateField name (.str s) m) := by
  have disjoint_int : ∀ k ∈ ["minLen", "maxLen", "email"],
      ∀ k' ∈ ["required", "min", "max"], k' ≠ k := by decide
  have disjoint_str : ∀ k ∈ ["min", "max"],
      ∀ k' ∈ ["required", "minLen", "maxLen", "email"], k' ≠ k := by decide
  refine ⟨?_, ?_, ?_⟩
  · intro k hk
    simp only [validateField_flat]
    constructor
    · rw [firstBlockError_int_congr n (m.set k a) m]
      intro k' hk'
      apply set_of_ne
      exact disjoint_int k hk k' hk'
    · rw [firstBlockError_int_congr n (m.erase k) m]
      intro k' hk'
      apply erase_of_ne
      exact disjoint_int k hk k' hk'
  · rw [validateField_flat]
    intro h
    have := firstBlockError_int_ne_email n m
    cases hf : firstBlockError (.int n) m with
    | none => rw [hf] at h; cases h
    | some e =>
      rw [hf] at h this
      simp only [toResult] at h
      injection h with h
      exact this (by rw [h])
  · intro k hk
    simp only [validateField_flat]
    constructor
    · rw [firstBlockError_str_congr s (m.set k a) m]
      intro k' hk'
      apply set_of_ne
      exact disjoint_str k hk k' hk'
    · rw [firstBlockError_str_congr s (m.erase k) m]
      intro k' hk'
      apply erase_of_ne
      exact disjoint_str k hk k' hk'

/-- C13: an entry under a key that is not one of the six rule names does not
change the result of `validateField`, whatever its argument; the annotation ""
gives the rule map with the single entry `"" -> ""`; and a rule map without any
of the six rule names gives no violation. -/
theorem validateField_ignores_unknown (name : String) (v : Value) (m : TagMap) (k a : String)
    (hk : k ∉ ["required", "min", "max", "minLen", "maxLen", "email"]) :
    validateField name v (m.set k a) = validateField name v m ∧
    (parseTags "" "" = some "" ∧ ∀ k' : String, k' ≠ "" → parseTags "" k' = none) ∧
    validateField name v (parseTags "") = .ok () ∧
    ((∀ k' ∈ ["required", "min", "max", "minLen", "maxLen", "email"], m k' = none) →
      validateField name v m = .ok () ∧ validateField name v (m.set k a) = .ok ()) := by
  have hset : validateField name v (m.set k a) = validateField name v m := by
    simp only [validateField_flat]
    rw [firstBlockError_congr v (m.set k a) m]
    intro k' hk'
    apply set_of_ne
    rintro rfl
    exact hk hk'
  have hempty : ∀ m' : TagMap,
      (∀ k' ∈ ["required", "min", "max", "minLen", "maxLen", "email"], m' k' = none) →
      validateField name v m' = .ok () := by
    intro m' h
    rw [validateField_flat, firstBlockError_congr v m' TagMap.empty
      (fun k' hk' => by rw [h k' hk']; rfl)]
    simp [firstBlockError, Rule.priority, List.findSome?, Rule.block, TagMap.empty, TagMap.index,
      toResult]
  have hp : parseTags "" = TagMap.empty.set "" "" := by
    rw [parseTags_eq_foldl]
    rfl
  refine ⟨hset, ⟨by decide, ?_⟩, ?_, ?_⟩
  · intro k' hk'
    rw [hp]
    simp [TagMap.set, TagMap.empty, hk']
  · apply hempty
    intro k' hk'
    rw [hp]
    have : k' ≠ "" := by
      rintro rfl
      revert hk'
      decide
    simp [TagMap.set, TagMap.empty, this]
  · intro h
    refine ⟨hempty m h, ?_⟩
    rw [hset]
    exact hempty m h

/-- C13 at the misspelt rule `minlen=3` added to the rule map of `min=1`. -/
theorem validateField_ignores_unknown_witness :
    validateField "Age" (.int 0) ((parseTags "min=1").set "minlen" "3")
      = validateField "Age" (.int 0) (parseTags "min=1") :=
  (validateField_ignores_unknown "Age" (.int 0) (parseTags "min=1") "minlen" "3"
    (by decide)).1

/-! ## Records without annotations and inputs that are no struct (C14, C15) -/

/-- C14: when every field's annotation is empty, `Validate` collects nothing
and returns `nil`, whatever the field values. -/
theorem Validate_without_annotations (fields : List StructField)
    (h : ∀ f ∈ fields, f.Tag = "") :
    collectErrors fields = [] ∧ Validate (.struct fields) = .ok () := by
  have hc : collectErrors fields = [] := by
    rw [collectErrors_eq, List.filterMap_eq_nil_iff]
    intro f hf
    simp [fieldViolation, h f hf]
  exact ⟨hc, by rw [Validate_struct, if_pos hc]⟩

/-- C14 at a record of two unannotated fields holding zero values. -/
theorem Validate_without_annotations_witness :
    collectErrors [{ Name := "Id", Tag := "", Value := .int 0 },
        { Name := "Note", Tag := "", Value := .str "" }] = [] ∧
    Validate (.struct [{ Name := "Id", Tag := "", Value := .int 0 },
        { Name := "Note", Tag := "", Value := .str "" }]) = .ok () :=
  Validate_without_annotations _ (by decide)

/-- C15: an input that is no struct gets the configuration error "input must be a
struct"; a struct never gets it: its error, if any, is a violation report, which
starts with "validation errors: " and so differs from the configuration error. -/
theorem Validate_configuration_error :
    Validate .nonStruct = .error "input must be a struct" ∧
    (∀ fields : List StructField, Validate (.struct fields) ≠ .error "input must be a struct") ∧
    (∀ (fields : List StructField) (msg : String), Validate (.struct fields) = .error msg →
      ∃ rest : String, msg = "validation errors: " ++ rest) ∧
    (∀ rest : String, "validation errors: " ++ rest ≠ "input must be a struct") := by
  have hne : ∀ rest : String, "validation errors: " ++ rest ≠ "input must be a struct" := by
    intro rest h
    have := congrArg String.data h
    simp at this
  refine ⟨rfl, ?_, ?_, hne⟩
  · intro fields h
    rw [Validate_struct] at h
    split_ifs at h
    injection h with h
    exact hne _ h
  · intro fields msg h
    rw [Validate_struct] at h
    split_ifs at h
    injection h with h
    exact ⟨_, h.symm⟩

/-! ## The profile endpoint (C16) -/

/-- C16: the response is 201 with "Profile created successfully" exactly when
the body decodes to a profile with a non-empty name and a positive age; a
decode failure, an empty name or an age that is not positive gives 400 with
"Invalid Body Input"; there is no third response. -/
theorem createProfileHandler_response (Decode : String → Except String Profile)
    (body : String) :
    (createProfileHandler Decode body =
        { Status := 201, ContentType := "application/json",
          Message := "Profile created successfully" } ↔
      ∃ t : Profile, Decode body = .ok t ∧ t.Name ≠ "" ∧ t.Age > 0) ∧
    (createProfileHandler Decode body =
        { Status := 400, ContentType := "application/json", Message := "Invalid Body Input" } ↔
      ((∃ e, Decode body = .error e) ∨
        ∃ t : Profile, Decode body = .ok t ∧ (t.Name = "" ∨ t.Age ≤ 0))) ∧
    (createProfileHandler Decode body =
        { Status := 201, ContentType := "application/json",
          Message := "Profile created successfully" } ∨
      createProfileHandler Decode body =
        { Status := 400, ContentType := "application/json",
          Message := "Invalid Body Input" }) := by
  unfold createProfileHandler
  cases h : Decode body with
  | error e => simp [StatusBadRequest]
  | ok t =>
    by_cases hc : t.Name = "" ∨ t.Age ≤ 0
    · simp only [hc, if_true, StatusBadRequest]
      refine ⟨?_, ?_, Or.inr trivial⟩
      · constructor
        · intro h2
          injection h2 with h3
          cases h3
        · rintro ⟨t', ht', h1, h2⟩
          injection ht' with ht'
          subst ht'
          rcases hc with hc | hc
          · exact absurd hc h1
          · omega
      · constructor
        · intro _
          exact Or.inr ⟨t, rfl, hc⟩
        · intro _
          trivial
    · simp only [hc, if_false, StatusCreated]
      have hc' : t.Name ≠ "" ∧ t.Age > 0 := by
        constructor
        · exact fun h1 => hc (Or.inl h1)
        · by_contra h2
          exact hc (Or.inr (by omega))
      refine ⟨?_, ?_, Or.inl trivial⟩
      · constructor
        · intro _
          exact ⟨t, rfl, hc'⟩
        · intro _
          trivial
      · constructor
        · intro h2
          injection h2 with h3
          cases h3
        · rintro (⟨e, he⟩ | ⟨t', ht', h1⟩)
          · cases he
          · injection ht' with ht'
            subst ht'
            exact absurd h1 hc

/-! ## `required` with the empty argument (C17) -/

theorem block_ne_required (r : Rule) (v : Value) (m : TagMap) (hr : r ≠ .required) :
    r.block v m ≠ some "is required" := by
  have h1 : ∀ a : String, "must be >= " ++ a ≠ "is required" := by
    intro a h
    have := congrArg String.data h
    simp at this
  have h2 : ∀ a : String, "must be <= " ++ a ≠ "is required" := by
    intro a h
    have := congrArg String.data h
    simp at this
  have h3 : ∀ a : String, "length must be >= " ++ a ≠ "is required" := by
    intro a h
    have := congrArg String.data h
    simp at this
  have h4 : ∀ a : String, "length must be <= " ++ a ≠ "is required" := by
    intro a h
    have := congrArg String.data h
    simp at this
  cases r with
  | required => exact absurd rfl hr
  | min =>
    simp only [Rule.block]
    cases m "min" with
    | none => simp
    | some a => simp only []; split_ifs <;> simp [h1]
  | max =>
    simp only [Rule.block]
    cases m "max" with
    | none => simp
    | some a => simp only []; split_ifs <;> simp [h2]
  | minLen =>
    simp only [Rule.block]
    cases m "minLen" with
    | none => simp
    | some a => simp only []; split_ifs <;> simp [h3]
  | maxLen =>
    simp only [Rule.block]
    cases m "maxLen" with
    | none => simp
    | some a => simp only []; split_ifs <;> simp [h4]
  | email =>
    simp only [Rule.block]
    split_ifs <;> simp

/-- C17: an entry `required -> ""` has the effect of no `required` entry at all;
`validateField` answers "is required" only when `required` carries a non-empty
argument (and the value is zero), as with `required=true`; a field annotated
`required,minLen=3` that holds "" is reported with "length must be >= 3". -/
theorem required_empty_argument_no_effect (name : String) (v : Value) (m : TagMap) :
    validateField name v (m.set "required" "") = validateField name v (m.erase "required") ∧
    (validateField name v m = .error "is required" →
      ∃ a : String, m "required" = some a ∧ a ≠ "" ∧ isZero v = true) ∧
    validateField "Name" (.str "") (parseTags "required=true") = .error "is required" ∧
    (parseTags "required,minLen=3" "required" = some "" ∧
      validateField "Name" (.str "") (parseTags "required,minLen=3")
        = .error "length must be >= 3") := by
  refine ⟨?_, ?_, by decide, by decide⟩
  · have hf : (fun r : Rule => r.block v (m.set "required" "")) =
        fun r : Rule => r.block v (m.erase "required") := by
      funext r
      cases r <;> simp [Rule.block, TagMap.index, TagMap.set, TagMap.erase]
    simp only [validateField_flat, firstBlockError, hf]
  · rw [validateField_flat]
    intro h
    have hf : firstBlockError v m = some "is required" := by
      cases hf : firstBlockError v m with
      | none => rw [hf] at h; cases h
      | some e =>
        rw [hf] at h
        simp only [toResult] at h
        injection h with h
        rw [h]
    obtain ⟨r, _, hr⟩ := List.exists_of_findSome?_eq_some hf
    have hreq : r = .required := by
      by_contra hne
      exact block_ne_required r v m hne hr
    subst hreq
    simp only [Rule.block] at hr
    split_ifs at hr with hc
    obtain ⟨h1, h2⟩ := hc
    cases hm : m "required" with
    | none => simp [TagMap.index, hm] at h1
    | some a =>
      refine ⟨a, rfl, ?_, h2⟩
      simpa [TagMap.index, hm] using h1

/-! ## Order of the tokens (C18) -/

theorem set_set_comm (m : TagMap) (k1 a1 k2 a2 : String) (h : k1 ≠ k2) :
    (m.set k1 a1).set k2 a2 = (m.set k2 a2).set k1 a1 := by
  funext k
  simp only [TagMap.set]
  by_cases h1 : k = k1
  · subst h1
    simp [h]
  · simp [h1]

theorem foldl_set_perm (ts us : List String) (m : TagMap) (hp : ts.Perm us)
    (hn : (ts.map tokenName).Nodup) :
    ts.foldl (fun m t => m.set (tokenName t) (tokenArg t)) m
      = us.foldl (fun m t => m.set (tokenName t) (tokenArg t)) m := by
  apply List.Perm.foldl_eq' hp
  intro x hx y hy z
  by_cases hxy : x = y
  · subst hxy
    rfl
  · have hne : tokenName x ≠ tokenName y := fun h =>
      hxy (List.inj_on_of_nodup_map hn hx hy h)
    exact set_set_comm z _ _ _ _ hne

/-- C18: two annotations whose tokens are a permutation of one another, the
rule names of the tokens being pairwise distinct, give the same rule map and
hence the same result of `validateField` on every value. -/
theorem validateField_token_order (name : String) (v : Value) (a1 a2 : String)
    (hp : (strings.Split a1 ',').Perm (strings.Split a2 ','))
    (hn : ((strings.Split a1 ',').map tokenName).Nodup) :
    parseTags a1 = parseTags a2 ∧
    validateField name v (parseTags a1) = validateField name v (parseTags a2) := by
  have h : parseTags a1 = parseTags a2 := by
    rw [parseTags_eq_foldl, parseTags_eq_foldl]
    exact foldl_set_perm _ _ _ hp hn
  exact ⟨h, by rw [h]⟩

/-- C18 at the annotation of `Age` and its reversal. -/
theorem validateField_token_order_witness :
    parseTags "required,min=18,max=100" = parseTags "max=100,min=18,required" ∧
    validateField "Age" (.int 105) (parseTags "required,min=18,max=100")
      = validateField "Age" (.int 105) (parseTags "max=100,min=18,required") :=
  validateField_token_order "Age" (.int 105) "required,min=18,max=100"
    "max=100,min=18,required" (by decide) (by decide)

/-! ## The text of the violation report (C19) -/

theorem validateField_minLen_only (name s a : String) :
    validateField name (.str s) (TagMap.empty.set "minLen" a) =
      if len s < parseInt a then .error ("length must be >= " ++ a) else .ok () := by
  rw [validateField_flat]
  simp only [firstBlockError, Rule.priority, List.findSome?, Rule.block, TagMap.set, TagMap.index,
    TagMap.empty]
  simp [Value.Kind, Value.String, toResult]
  split_ifs <;> simp_all [toResult]

theorem validateField_maxLen_only (name s a : String) :
    validateField name (.str s) (TagMap.empty.set "maxLen" a) =
      if len s > parseInt a then .error ("length must be <= " ++ a) else .ok () := by
  rw [validateField_flat]
  simp only [firstBlockError, Rule.priority, List.findSome?, Rule.block, TagMap.set, TagMap.index,
    TagMap.empty]
  simp [Value.Kind, Value.String, toResult]
  split_ifs <;> simp_all [toResult]

/-- C19: when some field fails, `Validate` returns the error whose text is
"validation errors: [", the `Error()` texts of the violations in field
declaration order separated by single spaces, and "]"; `Error()` is "Field ",
the field name, ": " and the reason; the reason of a `min`, `max`, `minLen` or
`maxLen` failure ends with the rule's argument as written, parsable or not; for
the record of `main` the text is "validation errors: [Field Age: must be <= 100]". -/
theorem Validate_error_text (fields : List StructField) (h : collectErrors fields ≠ []) :
    Validate (.struct fields) =
      .error ("validation errors: [" ++
        " ".intercalate ((fields.filterMap fieldViolation).map ValidationError.Error) ++ "]") ∧
    (∀ e : ValidationError, e.Error = "Field " ++ e.Field ++ ": " ++ e.Err) ∧
    (∀ (name : String) (v : Int) (s a e : String),
      (validateField name (.int v) (TagMap.empty.set "min" a) = .error e →
        e = "must be >= " ++ a) ∧
      (validateField name (.int v) (TagMap.empty.set "max" a) = .error e →
        e = "must be <= " ++ a) ∧
      (validateField name (.str s) (TagMap.empty.set "minLen" a) = .error e →
        e = "length must be >= " ++ a) ∧
      (validateField name (.str s) (TagMap.empty.set "maxLen" a) = .error e →
        e = "length must be <= " ++ a)) ∧
    (validateField "Age" (.int (-1)) (parseTags "min=abc") = .error "must be >= abc" ∧
      validateField "Name" (.str "x") (parseTags "maxLen=abc") = .error "length must be <= abc" ∧
      validateField "Name" (.str "") (parseTags "minLen=99999999999999999999")
        = .error "length must be >= 99999999999999999999") ∧
    Validate steve = .error "validation errors: [Field Age: must be <= 100]" := by
  refine ⟨?_, fun e => rfl, ?_, by decide, by decide⟩
  · rw [Validate_struct, if_neg h, collectErrors_eq, formatErrors]
    congr 1
  · intro name v s a e
    rw [validateField_min_only, validateField_max_only, validateField_minLen_only,
      validateField_maxLen_only]
    refine ⟨?_, ?_, ?_, ?_⟩ <;>
    · split_ifs
      · intro h2
        injection h2 with h2
        exact h2.symm
      · intro h2
        cases h2

/-- C19 at a record with two failing fields. -/
theorem Validate_error_text_witness :
    Validate (Avenger "Al" 5 "a@b.co" "Captain" 10) =
      .error ("validation errors: [" ++
        " ".intercalate (((AvengerFields "Al" 5 "a@b.co" "Captain" 10).filterMap
          fieldViolation).map ValidationError.Error) ++ "]") ∧
    Validate (Avenger "Al" 5 "a@b.co" "Captain" 10) =
      .error "validation errors: [Field Name: length must be >= 3 Field Age: must be >= 18]" :=
  ⟨(Validate_error_text (AvengerFields "Al" 5 "a@b.co" "Captain" 10) (by decide)).1, by decide⟩

end Validator
